import Mathlib

/-! # McMahon's Burgers: a shallow embedding of `McMahons_Burgers.cpp`

The C++ program simulates a burger restaurant: customers queue at counters,
an admission thread (`processOrders`) moves them onto a griddle of bounded
capacity, and a clock thread (`cook`) advances the time and frees griddle spots.

Modelling conventions
* `int` is the 32-bit two's complement type.  The arithmetic on times (the
  increment of `currentTime`, the finish time and the wait time of an admission)
  is computed in `Int` and wrapped into the range of `int` by `wrapInt`, which
  is what the compiled program does at an overflow.  The spot counter
  `availableSpots` moves by one per call of `addPatty` or `releaseSpot` and is
  kept in `Int`.
* `Customer*` is an address (`CustomerPtr`) into a memory of customer objects.
* `std::queue` is a list with the front at the head.
* `std::priority_queue<int, vector<int>, greater<int>>` is the list of its
  elements; `top` is the least element and `pop` removes one occurrence of it.
* The mutex makes every iteration of `cook` atomic, and `processOrders` atomic
  except at `cv.wait`, where clock iterations may run while the griddle is full.
-/

namespace McMahon

/-! ## Constants (lines 10-11) -/

/-- Time to cook a patty in minutes. -/
def BURGER_COOK_TIME : Int := 10

/-- Total time to make and package a burger in minutes. -/
def BURGER_TOTAL_TIME : Int := 11

/-! ## The type `int` -/

/-- The least value of `int`. -/
def INT_MIN : Int := -2147483648

/-- The greatest value of `int`. -/
def INT_MAX : Int := 2147483647

/-- The `int` that a mathematical result is stored as: the value congruent to it
modulo `2^32` in the range of `int`. -/
def wrapInt (x : Int) : Int := (x + 2147483648) % 4294967296 - 2147483648

/-- The value is one of the type `int`. -/
def IsInt (x : Int) : Prop := INT_MIN ≤ x ∧ x ≤ INT_MAX

instance IsInt.decidable (x : Int) : Decidable (IsInt x) :=
  inferInstanceAs (Decidable (INT_MIN ≤ x ∧ x ≤ INT_MAX))

/-! ## Customer (lines 14-21) -/

/-- The class `Customer`. -/
structure Customer where
  id : Int
  arrivalTime : Int
  waitTime : Int
deriving DecidableEq, Repr

/-- The constructor `Customer(id, arrivalTime)`: the wait time starts at 0. -/
def Customer.new (id arrivalTime : Int) : Customer :=
  { id := id, arrivalTime := arrivalTime, waitTime := 0 }

/-- A `Customer*`: the address of a customer object. -/
abbrev CustomerPtr := Nat

/-- The customer objects, by address. -/
abbrev Memory := CustomerPtr → Customer

/-! ## Counter (lines 24-42) -/

/-- The class `Counter`: `line` is a `std::queue<Customer*>`, front first. -/
structure Counter where
  line : List CustomerPtr
deriving DecidableEq, Repr

/-- The method `addCustomer`: `line.push(customer)`. -/
def Counter.addCustomer (c : Counter) (customer : CustomerPtr) : Counter :=
  { line := c.line ++ [customer] }

/-- The method `serveCustomer`: the result (`none` is `nullptr`) and the counter
afterwards. -/
def Counter.serveCustomer (c : Counter) : Option CustomerPtr × Counter :=
  match c.line with
  | [] => (none, c)
  | customer :: rest => (some customer, { line := rest })

/-- The method `getLineSize`. -/
def Counter.getLineSize (c : Counter) : Int := c.line.length

/-! ## The min-heap of finish times (line 49) -/

/-- The call `push` of the priority queue. -/
def pqPush (q : List Int) (x : Int) : List Int := x :: q

/-- The call `top` of the priority queue, whose order is `std::greater<int>`: the
least element.  The source never calls it on an empty queue (the value 0 there
is a placeholder). -/
def pqTop : List Int → Int
  | [] => 0
  | x :: xs => xs.foldl min x

/-- The call `pop` of the priority queue: one occurrence of the top leaves. -/
def pqPop (q : List Int) : List Int := q.erase (pqTop q)

/-! ## Griddle (lines 45-73) -/

/-- The class `Griddle`. -/
structure Griddle where
  capacity : Int
  availableSpots : Int
  cookTimes : List Int
deriving DecidableEq, Repr

/-- The constructor `Griddle(capacity)`. -/
def Griddle.new (capacity : Int) : Griddle :=
  { capacity := capacity, availableSpots := capacity, cookTimes := [] }

/-- The method `addPatty`. -/
def Griddle.addPatty (g : Griddle) (finishTime : Int) : Griddle :=
  { g with cookTimes := pqPush g.cookTimes finishTime,
           availableSpots := g.availableSpots - 1 }

/-- The method `releaseSpot`. -/
def Griddle.releaseSpot (g : Griddle) : Griddle :=
  if g.cookTimes.isEmpty then g
  else { g with cookTimes := pqPop g.cookTimes,
                availableSpots := g.availableSpots + 1 }

/-- The method `nextAvailableTime`. -/
def Griddle.nextAvailableTime (g : Griddle) : Int :=
  if g.cookTimes.isEmpty then 0 else pqTop g.cookTimes

/-- The method `isFull`. -/
def Griddle.isFull (g : Griddle) : Bool := g.availableSpots == 0

/-! ## Restaurant (lines 76-137) -/

/-- The class `Restaurant` (the mutex and the condition variable are part of the
execution model, not of the data). -/
structure Restaurant where
  numCounters : Int
  counters : List Counter
  griddle : Griddle
  currentTime : Int
deriving DecidableEq, Repr

/-- The constructor `Restaurant(numCounters, griddleCapacity)`.  The member
`counters(numCounters)` is a vector of that many empty counters; for a negative
count the vector constructor throws `std::length_error` (`none`). -/
def Restaurant.new (numCounters griddleCapacity : Int) : Option Restaurant :=
  if numCounters < 0 then none
  else some
    { numCounters := numCounters,
      counters := List.replicate numCounters.toNat { line := [] },
      griddle := Griddle.new griddleCapacity,
      currentTime := 0 }

/-- The value `counters[i].getLineSize()`.  The index is in range whenever
`counters.size() == numCounters`, which the constructor establishes. -/
def Restaurant.lineSize (r : Restaurant) (i : Nat) : Int :=
  (r.counters.getD i { line := [] }).getLineSize

/-- The loop of `findBestCounter`, `n` iterations from index `i` on. -/
def Restaurant.findBestCounterLoop (r : Restaurant) : Nat → Nat → Nat → Nat
  | 0, _, bestIndex => bestIndex
  | n + 1, i, bestIndex =>
    r.findBestCounterLoop n (i + 1)
      (if r.lineSize i < r.lineSize bestIndex then i else bestIndex)

/-- The method `findBestCounter`: `bestIndex` starts at 0 and `i` runs from 1
while `i < numCounters`.  It only reads the state, so it is a function of it. -/
def Restaurant.findBestCounter (r : Restaurant) : Nat :=
  r.findBestCounterLoop (r.numCounters - 1).toNat 1 0

/-- One iteration of the loop of `cook` (lines 127-134), which runs under the
mutex: the release test reads `currentTime` before the increment, and the
increment `currentTime++` is an `int` operation. -/
def Restaurant.cookStep (r : Restaurant) : Restaurant :=
  { r with
    griddle :=
      if r.griddle.nextAvailableTime ≤ r.currentTime then r.griddle.releaseSpot
      else r.griddle,
    currentTime := wrapInt (r.currentTime + 1) }

/-- The given number of consecutive iterations of the loop of `cook`. -/
def Restaurant.cookSteps : Nat → Restaurant → Restaurant
  | 0, r => r
  | n + 1, r => Restaurant.cookSteps n r.cookStep

/-- The call `cv.wait(lock, pred)` of line 107, `pred` being `!griddle.isFull()`.
With space on the griddle it returns at once, the mutex still held.  Otherwise
the mutex is free while the thread waits, and `ticks` iterations of `cook` run
before the thread has the mutex again; a griddle still full then means the
thread is still waiting (`none`). -/
def Restaurant.cvWait (r : Restaurant) (ticks : Nat) : Option Restaurant :=
  if r.griddle.isFull then
    if (Restaurant.cookSteps ticks r).griddle.isFull then none
    else some (Restaurant.cookSteps ticks r)
  else some r

/-- What the threads act on: the restaurant, the customer objects, and the lines
`Customer <id> is served. Wait time: <waitTime> minutes.` printed so far. -/
structure World where
  restaurant : Restaurant
  memory : Memory
  output : List (Int × Int)

/-- Lines 110-118 of `processOrders`: the admission of `customer`.  The sum of
line 110 and the sum and the difference of line 116 are `int` operations. -/
def World.admission (w : World) (customer : CustomerPtr) : World :=
  let finishTime :=
    wrapInt (max w.restaurant.griddle.nextAvailableTime (w.memory customer).arrivalTime
      + BURGER_COOK_TIME)
  let waitTime := wrapInt (wrapInt (finishTime + 1) - (w.memory customer).arrivalTime)
  { restaurant :=
      { w.restaurant with griddle := w.restaurant.griddle.addPatty finishTime },
    memory := Function.update w.memory customer
      { w.memory customer with waitTime := waitTime },
    output := w.output ++ [((w.memory customer).id, waitTime)] }

/-- The body of the loop of `processOrders` for `counters[i]` (lines 103-119);
`ticks` is the number of clock iterations that run if the thread has to wait.
`serveCustomer` cannot return `nullptr` here, the line being non-empty. -/
def World.visitCounter (w : World) (ticks : Nat) (i : Nat) : Option World :=
  if (w.restaurant.counters.getD i { line := [] }).line.isEmpty then some w
  else
    match (w.restaurant.counters.getD i { line := [] }).serveCustomer with
    | (none, _) => none
    | (some customer, counter) =>
      match Restaurant.cvWait
          { w.restaurant with counters := w.restaurant.counters.set i counter } ticks with
      | none => none
      | some r => some (World.admission { w with restaurant := r } customer)

/-- The loop of `processOrders` over `n` counters from index `i` on; `sched i`
clock iterations run when the thread has to wait at counter `i`. -/
def World.processOrdersLoop (sched : Nat → Nat) : Nat → Nat → World → Option World
  | 0, _, w => some w
  | n + 1, i, w =>
    match w.visitCounter (sched i) i with
    | none => none
    | some w1 => World.processOrdersLoop sched n (i + 1) w1

/-- The method `processOrders`: one pass over `counters`.  The result is `none`
when the thread is still waiting after the clock iterations of the schedule. -/
def World.processOrders (w : World) (sched : Nat → Nat) : Option World :=
  World.processOrdersLoop sched w.restaurant.counters.length 0 w

/-! ## Interleavings of the threads -/

/-- The shared state together with the local variable `customer` of the thread
running `processOrders`: `some c` between the pop of line 104 and the admission,
that is while the thread is at `cv.wait`. -/
structure Sys where
  world : World
  holding : Option CustomerPtr

/-- The atomic actions of the threads. -/
inductive Action where
  /-- The call `counters[i].addCustomer(customer)` of `main` (line 156). -/
  | arrive (i : Nat) (customer : CustomerPtr)
  /-- Line 104: `processOrders` takes the front customer of the non-empty `counters[i]`. -/
  | pop (i : Nat)
  /-- Lines 107-118: the wait is over, the griddle has space, the customer is admitted. -/
  | admission
  /-- One iteration of the loop of `cook`. -/
  | clock
deriving DecidableEq, Repr

/-- One action; `none` when the action cannot happen in that state. -/
def Sys.step (s : Sys) : Action → Option Sys
  | Action.arrive i customer =>
    if i < s.world.restaurant.counters.length then
      some { s with world := { s.world with restaurant := { s.world.restaurant with
        counters := s.world.restaurant.counters.set i
          ((s.world.restaurant.counters.getD i { line := [] }).addCustomer customer) } } }
    else none
  | Action.pop i =>
    match s.holding, (s.world.restaurant.counters.getD i { line := [] }).serveCustomer with
    | none, (some customer, counter) =>
      some { world := { s.world with restaurant := { s.world.restaurant with
               counters := s.world.restaurant.counters.set i counter } },
             holding := some customer }
    | _, _ => none
  | Action.admission =>
    match s.holding with
    | some customer =>
      if s.world.restaurant.griddle.isFull then none
      else some { world := s.world.admission customer, holding := none }
    | none => none
  | Action.clock =>
    some { s with world := { s.world with restaurant := s.world.restaurant.cookStep } }

/-- A sequence of actions, one after the other. -/
def Sys.run (s : Sys) : List Action → Option Sys
  | [] => some s
  | a :: rest =>
    match s.step a with
    | none => none
    | some t => Sys.run t rest

/-! ## Sequences of griddle calls -/

/-- A call of a mutating method of `Griddle`. -/
inductive GriddleOp where
  | addPatty (finishTime : Int)
  | releaseSpot
deriving DecidableEq, Repr

/-- The griddle after one call. -/
def Griddle.call (g : Griddle) : GriddleOp → Griddle
  | GriddleOp.addPatty finishTime => g.addPatty finishTime
  | GriddleOp.releaseSpot => g.releaseSpot

/-- The griddle after a sequence of calls. -/
def Griddle.calls (g : Griddle) (ops : List GriddleOp) : Griddle :=
  ops.foldl Griddle.call g

/-! ## main (lines 139-180) -/

/-- The customer objects of `main`: `customers[i]` is `new Customer(i + 1, i * 2)`,
at address `i`. -/
def mainCustomers : Memory := fun i => Customer.new (i + 1) (i * 2)

/-- The body of the routing loop of `main` (lines 155-156). -/
def Restaurant.route (r : Restaurant) (customer : CustomerPtr) : Restaurant :=
  let bestCounter := r.findBestCounter
  { r with
    counters := r.counters.set bestCounter
      ((r.counters.getD bestCounter { line := [] }).addCustomer customer) }

/-- The run of `main` up to the join of the admission thread: construction,
routing of the 10 customers, then `processOrders`.  The clock thread runs
`before` iterations before the admission thread takes the mutex (they touch
neither the counters nor the customers, so their place among the routing steps
does not matter) and `sched i` iterations during a wait at counter `i`. -/
def mainRun (before : Nat) (sched : Nat → Nat) : Option World :=
  match Restaurant.new 3 4 with
  | none => none
  | some r =>
    World.processOrders
      { restaurant := Restaurant.cookSteps before ((List.range 10).foldl Restaurant.route r),
        memory := mainCustomers,
        output := [] }
      sched

/-- The sum `totalWaitTime` of `main` (lines 166-169), an `int` accumulated over
the 10 customers. -/
def mainTotalWaitTime (w : World) : Int :=
  (List.range 10).foldl (fun total i => wrapInt (total + (w.memory i).waitTime)) 0

/-- A call of a method of `Counter` that changes the line. -/
inductive CounterOp where
  | addCustomer (customer : CustomerPtr)
  | serveCustomer
deriving DecidableEq, Repr

/-- The counter after a sequence of calls, with the values returned by the
`serveCustomer` calls, in order. -/
def Counter.calls : Counter → List CounterOp → Counter × List (Option CustomerPtr)
  | c, [] => (c, [])
  | c, CounterOp.addCustomer customer :: ops => Counter.calls (c.addCustomer customer) ops
  | c, CounterOp.serveCustomer :: ops =>
    ((Counter.calls c.serveCustomer.2 ops).1,
     c.serveCustomer.1 :: (Counter.calls c.serveCustomer.2 ops).2)

theorem wrapInt_of_isInt (x : Int) (h : IsInt x) : wrapInt x = x := by
  simp only [IsInt, INT_MIN, INT_MAX] at h
  simp only [wrapInt]
  omega

theorem wrapInt_isInt (x : Int) : IsInt (wrapInt x) := by
  simp only [IsInt, INT_MIN, INT_MAX, wrapInt]
  omega

theorem wrapInt_max : wrapInt (INT_MAX + 1) = INT_MIN := by decide

theorem foldl_min_le (xs : List Int) :
    ∀ x : Int, xs.foldl min x ≤ x ∧ ∀ y ∈ xs, xs.foldl min x ≤ y := by
  induction xs with
  | nil => intro x; simp
  | cons a xs ih =>
    intro x
    simp only [List.foldl_cons, List.mem_cons]
    have h := ih (min x a)
    refine ⟨le_trans h.1 (min_le_left x a), ?_⟩
    intro y hy
    rcases hy with rfl | hy
    · exact le_trans h.1 (min_le_right x y)
    · exact h.2 y hy

theorem foldl_min_mem (xs : List Int) :
    ∀ x : Int, xs.foldl min x = x ∨ xs.foldl min x ∈ xs := by
  induction xs with
  | nil => intro x; simp
  | cons a xs ih =>
    intro x
    simp only [List.foldl_cons, List.mem_cons]
    rcases ih (min x a) with h | h
    · rcases min_choice x a with hm | hm
      · left; rw [h, hm]
      · right; left; rw [h, hm]
    · right; right; exact h

theorem pqTop_mem (q : List Int) (h : q ≠ []) : pqTop q ∈ q := by
  cases q with
  | nil => exact absurd rfl h
  | cons x xs =>
    simp only [pqTop, List.mem_cons]
    exact foldl_min_mem xs x

theorem pqTop_le (q : List Int) : ∀ x ∈ q, pqTop q ≤ x := by
  cases q with
  | nil => intro x hx; simp at hx
  | cons a xs =>
    intro x hx
    simp only [pqTop]
    rcases List.mem_cons.mp hx with rfl | hx
    · exact (foldl_min_le xs x).1
    · exact (foldl_min_le xs a).2 x hx

theorem pqPop_length (q : List Int) (h : q ≠ []) : (pqPop q).length + 1 = q.length := by
  have hm := pqTop_mem q h
  have hpos : 0 < q.length := List.length_pos.mpr h
  unfold pqPop
  rw [List.length_erase_of_mem hm]
  omega

theorem isEmpty_eq_false_of_ne {α : Type} (q : List α) (h : q ≠ []) : q.isEmpty = false := by
  cases q with
  | nil => exact absurd rfl h
  | cons x xs => rfl

/-! ### The griddle -/

theorem nextAvailableTime_of_ne (g : Griddle) (h : g.cookTimes ≠ []) :
    g.nextAvailableTime = pqTop g.cookTimes := by
  simp [Griddle.nextAvailableTime, isEmpty_eq_false_of_ne _ h]

theorem releaseSpot_of_ne (g : Griddle) (h : g.cookTimes ≠ []) :
    g.releaseSpot =
      { g with cookTimes := pqPop g.cookTimes, availableSpots := g.availableSpots + 1 } := by
  simp [Griddle.releaseSpot, isEmpty_eq_false_of_ne _ h]

theorem releaseSpot_of_nil (g : Griddle) (h : g.cookTimes = []) : g.releaseSpot = g := by
  simp [Griddle.releaseSpot, h]

theorem cookStep_currentTime (r : Restaurant) :
    r.cookStep.currentTime = wrapInt (r.currentTime + 1) := rfl

theorem cookStep_counters (r : Restaurant) : r.cookStep.counters = r.counters := rfl

theorem cookStep_numCounters (r : Restaurant) : r.cookStep.numCounters = r.numCounters := rfl

theorem cookStep_griddle_release (r : Restaurant) (hne : r.griddle.cookTimes ≠ [])
    (hdue : pqTop r.griddle.cookTimes ≤ r.currentTime) :
    r.cookStep.griddle =
      { r.griddle with cookTimes := pqPop r.griddle.cookTimes,
                       availableSpots := r.griddle.availableSpots + 1 } := by
  simp only [Restaurant.cookStep, nextAvailableTime_of_ne _ hne, if_pos hdue,
    releaseSpot_of_ne _ hne]

theorem cookStep_griddle_keep (r : Restaurant)
    (h : r.griddle.cookTimes = [] ∨ r.currentTime < pqTop r.griddle.cookTimes) :
    r.cookStep.griddle = r.griddle := by
  by_cases hne : r.griddle.cookTimes = []
  · simp only [Restaurant.cookStep, releaseSpot_of_nil _ hne, ite_self]
  · rcases h with h | h
    · exact absurd h hne
    · simp only [Restaurant.cookStep, nextAvailableTime_of_ne _ hne, if_neg (not_le.mpr h)]

theorem cookStep_of_nil (r : Restaurant) (h : r.griddle.cookTimes = []) :
    r.cookStep = { r with currentTime := wrapInt (r.currentTime + 1) } := by
  have hg := cookStep_griddle_keep r (Or.inl h)
  cases r with
  | mk n cs g t =>
    simp only [Restaurant.cookStep] at hg ⊢
    rw [hg]

theorem cookSteps_of_nil (n : Nat) :
    ∀ r : Restaurant, r.griddle.cookTimes = [] →
      ∃ t : Int, Restaurant.cookSteps n r = { r with currentTime := t } := by
  induction n with
  | zero => intro r _; exact ⟨r.currentTime, rfl⟩
  | succ n ih =>
    intro r h
    have h1 : r.cookStep.griddle.cookTimes = [] := by
      rw [cookStep_griddle_keep r (Or.inl h)]; exact h
    obtain ⟨t, ht⟩ := ih r.cookStep h1
    refine ⟨t, ?_⟩
    simp only [Restaurant.cookSteps]
    rw [ht, cookStep_of_nil r h]

/-! ### The claims on the griddle and the clock -/

theorem admission_cookTimes (w : World) (customer : CustomerPtr) :
    (w.admission customer).restaurant.griddle.cookTimes =
      wrapInt (max w.restaurant.griddle.nextAvailableTime (w.memory customer).arrivalTime + 10)
        :: w.restaurant.griddle.cookTimes := rfl

theorem admission_waitTime (w : World) (customer : CustomerPtr) :
    ((w.admission customer).memory customer).waitTime =
      wrapInt (wrapInt (wrapInt
        (max w.restaurant.griddle.nextAvailableTime (w.memory customer).arrivalTime + 10) + 1)
        - (w.memory customer).arrivalTime) := by
  simp [World.admission, BURGER_COOK_TIME]

theorem admission_waitTime_exact (w : World) (customer : CustomerPtr)
    (h : IsInt (max w.restaurant.griddle.nextAvailableTime (w.memory customer).arrivalTime
      + 10 + 1 - (w.memory customer).arrivalTime)) :
    ((w.admission customer).memory customer).waitTime =
      max w.restaurant.griddle.nextAvailableTime (w.memory customer).arrivalTime + 10 + 1
        - (w.memory customer).arrivalTime := by
  rw [admission_waitTime]
  simp only [IsInt, INT_MIN, INT_MAX] at h
  simp only [wrapInt]
  omega

/-- C2, the claim at an arrival time near the top of `int`: a customer arriving
at 2147483642 is admitted on an empty griddle (`e = 0`); the tick reserved is
-2147483644, which is neither `max(e, a) + 10` nor at least `e + 10` nor at
least `a + 10`. -/
theorem admission_arithmetic_counterexample :
    IsInt 2147483642 ∧
    (Griddle.new 4).nextAvailableTime = 0 ∧
    ((World.mk (Restaurant.mk 1 [{ line := [0] }] (Griddle.new 4) 0)
      (fun _ => Customer.new 1 2147483642) []).admission 0).restaurant.griddle.cookTimes
      = [-2147483644] ∧
    ¬ ((-2147483644 : Int) = max 0 2147483642 + 10) ∧
    ¬ ((0 : Int) + 10 ≤ -2147483644) ∧
    ¬ ((2147483642 : Int) + 10 ≤ -2147483644) := by
  decide

/-- C2 as amended: an admission by `processOrders` (lines 110-116), with `e` the
value of `nextAvailableTime` at that moment and `a` the arrival time of the
customer, reserves the tick `max e a + 10` computed in `int` and sets the wait
time to that tick `+ 1 - a` computed in `int`.  When `max e a + 10` is within
the range of `int` the tick is `max e a + 10`, at least `e + 10` and at least
`a + 10`, and when `max e a + 10 + 1 - a` is within the range too the wait time
is the tick `+ 1 - a`.  In the run of `main` the customers 1, 2, 3 are admitted
with wait times 11, 19, 17 and the ticks reserved are 10, 20, 20. -/
theorem admission_arithmetic :
    (∀ (w : World) (customer : CustomerPtr),
      (w.admission customer).restaurant.griddle =
        w.restaurant.griddle.addPatty (wrapInt
          (max w.restaurant.griddle.nextAvailableTime (w.memory customer).arrivalTime + 10)) ∧
      ((w.admission customer).memory customer).waitTime =
        wrapInt (wrapInt (wrapInt
          (max w.restaurant.griddle.nextAvailableTime (w.memory customer).arrivalTime + 10) + 1)
          - (w.memory customer).arrivalTime)) ∧
    (∀ (w : World) (customer : CustomerPtr),
      IsInt (max w.restaurant.griddle.nextAvailableTime (w.memory customer).arrivalTime + 10) →
      (w.admission customer).restaurant.griddle =
        w.restaurant.griddle.addPatty
          (max w.restaurant.griddle.nextAvailableTime (w.memory customer).arrivalTime + 10) ∧
      w.restaurant.griddle.nextAvailableTime + 10 ≤
        max w.restaurant.griddle.nextAvailableTime (w.memory customer).arrivalTime + 10 ∧
      (w.memory customer).arrivalTime + 10 ≤
        max w.restaurant.griddle.nextAvailableTime (w.memory customer).arrivalTime + 10 ∧
      (IsInt (max w.restaurant.griddle.nextAvailableTime (w.memory customer).arrivalTime
          + 10 + 1 - (w.memory customer).arrivalTime) →
        ((w.admission customer).memory customer).waitTime =
          (max w.restaurant.griddle.nextAvailableTime (w.memory customer).arrivalTime + 10)
            + 1 - (w.memory customer).arrivalTime)) ∧
    (∀ (before : Nat) (sched : Nat → Nat), ∃ w, mainRun before sched = some w ∧
      w.output = [(1, 11), (2, 19), (3, 17)] ∧
      w.restaurant.griddle.cookTimes = [20, 20, 10] ∧
      (w.memory 0).waitTime = 10 + 1 - (w.memory 0).arrivalTime ∧
      (w.memory 1).waitTime = 20 + 1 - (w.memory 1).arrivalTime ∧
      (w.memory 2).waitTime = 20 + 1 - (w.memory 2).arrivalTime) := by
  refine ⟨fun w customer => ⟨rfl, admission_waitTime w customer⟩, ?_, ?_⟩
  · intro w customer hfin
    refine ⟨?_, add_le_add_right (le_max_left _ _) 10, add_le_add_right (le_max_right _ _) 10,
      admission_waitTime_exact w customer⟩
    show w.restaurant.griddle.addPatty (wrapInt
      (max w.restaurant.griddle.nextAvailableTime (w.memory customer).arrivalTime + 10)) = _
    rw [wrapInt_of_isInt _ hfin]
  · intro before sched
    simp only [mainRun, Restaurant.new]
    rw [if_neg (by decide)]
    simp only
    obtain ⟨t, ht⟩ := cookSteps_of_nil before
      ((List.range 10).foldl Restaurant.route
        { numCounters := 3, counters := List.replicate (3 : Int).toNat { line := [] },
          griddle := Griddle.new 4, currentTime := 0 }) rfl
    rw [ht]
    exact ⟨_, rfl, rfl, rfl, rfl, rfl, rfl⟩

/-- Witness for C2 as amended: customer 2 of `main` (arrival 2) admitted on a
griddle holding the tick 10. -/
theorem admission_arithmetic_witness :
    ((World.mk (Restaurant.mk 1 [{ line := [] }] (Griddle.mk 4 3 [10]) 0)
        mainCustomers []).admission 1).restaurant.griddle
      = (Griddle.mk 4 3 [10]).addPatty
          (max (Griddle.mk 4 3 [10]).nextAvailableTime (mainCustomers 1).arrivalTime + 10) ∧
    (Griddle.mk 4 3 [10]).nextAvailableTime + 10
      ≤ max (Griddle.mk 4 3 [10]).nextAvailableTime (mainCustomers 1).arrivalTime + 10 ∧
    (mainCustomers 1).arrivalTime + 10
      ≤ max (Griddle.mk 4 3 [10]).nextAvailableTime (mainCustomers 1).arrivalTime + 10 ∧
    (((World.mk (Restaurant.mk 1 [{ line := [] }] (Griddle.mk 4 3 [10]) 0)
        mainCustomers []).admission 1).memory 1).waitTime
      = (max (Griddle.mk 4 3 [10]).nextAvailableTime (mainCustomers 1).arrivalTime + 10)
          + 1 - (mainCustomers 1).arrivalTime :=
  ⟨((admission_arithmetic.2.1
      (World.mk (Restaurant.mk 1 [{ line := [] }] (Griddle.mk 4 3 [10]) 0) mainCustomers [])
      1 (by decide)).1),
   ((admission_arithmetic.2.1
      (World.mk (Restaurant.mk 1 [{ line := [] }] (Griddle.mk 4 3 [10]) 0) mainCustomers [])
      1 (by decide)).2.1),
   ((admission_arithmetic.2.1
      (World.mk (Restaurant.mk 1 [{ line := [] }] (Griddle.mk 4 3 [10]) 0) mainCustomers [])
      1 (by decide)).2.2.1),
   ((admission_arithmetic.2.1
      (World.mk (Restaurant.mk 1 [{ line := [] }] (Griddle.mk 4 3 [10]) 0) mainCustomers [])
      1 (by decide)).2.2.2 (by decide))⟩

/-- C6, the claim at pending minimum 5 and clock 4: the step that moves the clock
to 5 does not free the slot. -/
theorem cookStep_order_counterexample :
    pqTop (Restaurant.mk 1 [{ line := [] }] (Griddle.mk 1 0 [5]) 4).griddle.cookTimes = 5 ∧
    (Restaurant.mk 1 [{ line := [] }] (Griddle.mk 1 0 [5]) 4).currentTime = 5 - 1 ∧
    (Restaurant.mk 1 [{ line := [] }] (Griddle.mk 1 0 [5]) 4).cookStep.currentTime = 5 ∧
    (Restaurant.mk 1 [{ line := [] }] (Griddle.mk 1 0 [5]) 4).cookStep.griddle
      = Griddle.mk 1 0 [5] := by
  decide

/-- C6 as amended: a clock step applies the release test to the clock value
before the increment and then increments the clock by 1 in `int` (so by exactly
1 unless the clock is at the top of `int`): the earliest pending slot is freed
exactly when the pending set is non-empty and its minimum is at most the clock
value before the increment.  With pending minimum `t` and clock `t - 1`, the
step that moves the clock to `t` frees nothing and the next step frees that
slot. -/
theorem cookStep_order (r : Restaurant) :
    r.cookStep.currentTime = wrapInt (r.currentTime + 1) ∧
    (IsInt (r.currentTime + 1) → r.cookStep.currentTime = r.currentTime + 1) ∧
    (r.griddle.cookTimes ≠ [] ∧ pqTop r.griddle.cookTimes ≤ r.currentTime →
      r.cookStep.griddle =
        { r.griddle with cookTimes := pqPop r.griddle.cookTimes,
                         availableSpots := r.griddle.availableSpots + 1 }) ∧
    (¬ (r.griddle.cookTimes ≠ [] ∧ pqTop r.griddle.cookTimes ≤ r.currentTime) →
      r.cookStep.griddle = r.griddle) ∧
    (r.griddle.cookTimes ≠ [] → r.currentTime = pqTop r.griddle.cookTimes - 1 →
      r.cookStep.griddle = r.griddle ∧
      (IsInt (pqTop r.griddle.cookTimes) →
        r.cookStep.currentTime = pqTop r.griddle.cookTimes ∧
        r.cookStep.cookStep.griddle =
          { r.griddle with cookTimes := pqPop r.griddle.cookTimes,
                           availableSpots := r.griddle.availableSpots + 1 })) := by
  refine ⟨rfl, fun h => (cookStep_currentTime r).trans (wrapInt_of_isInt _ h),
    fun h => cookStep_griddle_release r h.1 h.2, ?_, ?_⟩
  · intro h
    apply cookStep_griddle_keep
    by_cases hne : r.griddle.cookTimes = []
    · exact Or.inl hne
    · exact Or.inr (not_le.mp (fun hle => h ⟨hne, hle⟩))
  · intro hne ht
    have hkeep : r.cookStep.griddle = r.griddle :=
      cookStep_griddle_keep r (Or.inr (by omega))
    refine ⟨hkeep, fun hint => ?_⟩
    have htime : r.cookStep.currentTime = pqTop r.griddle.cookTimes := by
      rw [cookStep_currentTime, ht, sub_add_cancel]
      exact wrapInt_of_isInt _ hint
    refine ⟨htime, ?_⟩
    have h2 := cookStep_griddle_release r.cookStep (by rw [hkeep]; exact hne)
      (by rw [hkeep, htime])
    rw [h2, hkeep]

/-- Witness for C6 as amended: pending ticks 5 and 7 at clock 4. -/
theorem cookStep_order_witness :
    (Restaurant.mk 1 [{ line := [] }] (Griddle.mk 2 0 [5, 7]) 4).cookStep.griddle
      = Griddle.mk 2 0 [5, 7] ∧
    (Restaurant.mk 1 [{ line := [] }] (Griddle.mk 2 0 [5, 7]) 4).cookStep.currentTime = 5 ∧
    (Restaurant.mk 1 [{ line := [] }] (Griddle.mk 2 0 [5, 7]) 4).cookStep.cookStep.griddle
      = Griddle.mk 2 1 [7] :=
  ⟨((cookStep_order (Restaurant.mk 1 [{ line := [] }] (Griddle.mk 2 0 [5, 7]) 4)).2.2.2.2
      (by decide) (by decide)).1,
   ((cookStep_order (Restaurant.mk 1 [{ line := [] }] (Griddle.mk 2 0 [5, 7]) 4)).2.2.2.2
      (by decide) (by decide)).2 (by decide)⟩

/-- C7: a clock step never removes a pending tick greater than the clock value
it compared against: a tick `x` with fewer occurrences after the step satisfies
`x <= currentTime`, and when every pending tick exceeds the clock the griddle
(pending ticks and `availableSpots`) is unchanged.  This holds for every clock
value, so in particular for `currentTime >= 0`. -/
theorem no_early_release (r : Restaurant) :
    (∀ x : Int, r.cookStep.griddle.cookTimes.count x < r.griddle.cookTimes.count x →
      x ≤ r.currentTime) ∧
    ((∀ x ∈ r.griddle.cookTimes, r.currentTime < x) →
      r.cookStep.griddle.cookTimes = r.griddle.cookTimes ∧
      r.cookStep.griddle.availableSpots = r.griddle.availableSpots) := by
  constructor
  · intro x hx
    by_cases hrel : r.griddle.cookTimes ≠ [] ∧ pqTop r.griddle.cookTimes ≤ r.currentTime
    · rw [cookStep_griddle_release r hrel.1 hrel.2] at hx
      simp only [pqPop] at hx
      by_cases hxe : x = pqTop r.griddle.cookTimes
      · rw [hxe]; exact hrel.2
      · rw [List.count_erase_of_ne hxe] at hx
        exact absurd hx (lt_irrefl _)
    · have hkeep : r.cookStep.griddle = r.griddle := by
        apply cookStep_griddle_keep
        by_cases hne : r.griddle.cookTimes = []
        · exact Or.inl hne
        · exact Or.inr (not_le.mp (fun hle => hrel ⟨hne, hle⟩))
      rw [hkeep] at hx
      exact absurd hx (lt_irrefl _)
  · intro hall
    have hkeep : r.cookStep.griddle = r.griddle := by
      apply cookStep_griddle_keep
      by_cases hne : r.griddle.cookTimes = []
      · exact Or.inl hne
      · exact Or.inr (hall _ (pqTop_mem _ hne))
    rw [hkeep]
    exact ⟨rfl, rfl⟩

/-- Witness for C7: pending ticks 5 and 7 at clock 3. -/
theorem no_early_release_witness :
    (Restaurant.mk 1 [{ line := [] }] (Griddle.mk 2 0 [5, 7]) 3).cookStep.griddle.cookTimes
      = [5, 7] ∧
    (Restaurant.mk 1 [{ line := [] }] (Griddle.mk 2 0 [5, 7]) 3).cookStep.griddle.availableSpots
      = 0 :=
  (no_early_release (Restaurant.mk 1 [{ line := [] }] (Griddle.mk 2 0 [5, 7]) 3)).2
    (by decide)

/-- C8: a clock step either leaves the griddle as it is or removes exactly one
pending tick, an occurrence of the minimum of the pending ticks, every other
entry staying pending and `availableSpots` rising by exactly 1.  The pending
ticks 5, 5, 7 at clock 9 become 5, 7 after one step. -/
theorem one_release_per_tick :
    (∀ r : Restaurant,
      r.cookStep.griddle = r.griddle ∨
      (pqTop r.griddle.cookTimes ∈ r.griddle.cookTimes ∧
       (∀ x ∈ r.griddle.cookTimes, pqTop r.griddle.cookTimes ≤ x) ∧
       r.cookStep.griddle.cookTimes = r.griddle.cookTimes.erase (pqTop r.griddle.cookTimes) ∧
       r.cookStep.griddle.cookTimes.length + 1 = r.griddle.cookTimes.length ∧
       r.cookStep.griddle.availableSpots = r.griddle.availableSpots + 1 ∧
       r.cookStep.griddle.capacity = r.griddle.capacity)) ∧
    (Restaurant.mk 1 [{ line := [] }] (Griddle.mk 4 1 [5, 5, 7]) 9).cookStep.griddle
      = Griddle.mk 4 2 [5, 7] ∧
    (Restaurant.mk 1 [{ line := [] }] (Griddle.mk 4 1 [7, 5, 5]) 9).cookStep.griddle
      = Griddle.mk 4 2 [7, 5] := by
  refine ⟨?_, by decide, by decide⟩
  intro r
  by_cases hrel : r.griddle.cookTimes ≠ [] ∧ pqTop r.griddle.cookTimes ≤ r.currentTime
  · right
    rw [cookStep_griddle_release r hrel.1 hrel.2]
    exact ⟨pqTop_mem _ hrel.1, pqTop_le _, rfl, pqPop_length _ hrel.1, rfl, rfl⟩
  · left
    apply cookStep_griddle_keep
    by_cases hne : r.griddle.cookTimes = []
    · exact Or.inl hne
    · exact Or.inr (not_le.mp (fun hle => hrel ⟨hne, hle⟩))

/-- C9, the run of `main` evaluated: `processOrders` is called once and makes one
pass over the three counters, so only the customers 1, 2, 3 are admitted (three
lines printed); the customers 4 to 10 stay in the queues with wait time 0, and
the total of the wait times is 47. -/
theorem main_admits_three_of_ten (before : Nat) (sched : Nat → Nat) :
    ∃ w, mainRun before sched = some w ∧
      w.output = [(1, 11), (2, 19), (3, 17)] ∧
      w.restaurant.counters = [{ line := [3, 6, 9] }, { line := [4, 7] }, { line := [5, 8] }] ∧
      (List.range 10).map (fun i => (w.memory i).id) = [1, 2, 3, 4, 5, 6, 7, 8, 9, 10] ∧
      (List.range 10).map (fun i => (w.memory i).waitTime) = [11, 19, 17, 0, 0, 0, 0, 0, 0, 0] ∧
      mainTotalWaitTime w = 47 := by
  simp only [mainRun, Restaurant.new]
  rw [if_neg (by decide)]
  simp only
  obtain ⟨t, ht⟩ := cookSteps_of_nil before
    ((List.range 10).foldl Restaurant.route
      { numCounters := 3, counters := List.replicate (3 : Int).toNat { line := [] },
        griddle := Griddle.new 4, currentTime := 0 }) rfl
  rw [ht]
  exact ⟨_, rfl, rfl, rfl, rfl, rfl, rfl⟩

/-- C10, the claim at the top of `int`: with no pending tick and the clock at
2147483647 a clock step sets `currentTime` to -2147483648, which is not the
clock plus 1. -/
theorem empty_resource_tick_counterexample :
    (Restaurant.mk 1 [{ line := [] }] (Griddle.mk 4 4 []) 2147483647).griddle.cookTimes = [] ∧
    IsInt 2147483647 ∧
    (Restaurant.mk 1 [{ line := [] }] (Griddle.mk 4 4 []) 2147483647).cookStep.currentTime
      = -2147483648 ∧
    (Restaurant.mk 1 [{ line := [] }] (Griddle.mk 4 4 []) 2147483647).cookStep.currentTime
      ≠ (Restaurant.mk 1 [{ line := [] }] (Griddle.mk 4 4 []) 2147483647).currentTime + 1 := by
  decide

/-- C10 as amended: on a state with no pending tick a clock step increases
`currentTime` by 1 in `int` (by exactly 1 when the clock plus 1 is within the
range of `int`, and from 2147483647 to -2147483648) and leaves
`availableSpots`, the pending ticks, the capacity and all the counter queues
unchanged. -/
theorem empty_resource_tick (r : Restaurant) (h : r.griddle.cookTimes = []) :
    r.cookStep.currentTime = wrapInt (r.currentTime + 1) ∧
    (IsInt (r.currentTime + 1) → r.cookStep.currentTime = r.currentTime + 1) ∧
    (r.currentTime = INT_MAX → r.cookStep.currentTime = INT_MIN) ∧
    r.cookStep.griddle.availableSpots = r.griddle.availableSpots ∧
    r.cookStep.griddle.cookTimes = [] ∧
    r.cookStep.griddle.capacity = r.griddle.capacity ∧
    r.cookStep.counters = r.counters ∧
    r.cookStep.numCounters = r.numCounters := by
  rw [cookStep_of_nil r h]
  refine ⟨rfl, fun hint => wrapInt_of_isInt _ hint, ?_, rfl, h, rfl, rfl, rfl⟩
  intro hmax
  show wrapInt (r.currentTime + 1) = INT_MIN
  rw [hmax]
  exact wrapInt_max

/-- Witness for C10 as amended: an empty griddle of capacity 4 at clock 7,
customers waiting. -/
theorem empty_resource_tick_witness :
    (Restaurant.mk 2 [{ line := [0, 2] }, { line := [1] }] (Griddle.mk 4 4 []) 7).cookStep.currentTime
      = 7 + 1 ∧
    (Restaurant.mk 2 [{ line := [0, 2] }, { line := [1] }] (Griddle.mk 4 4 []) 7).cookStep.griddle.availableSpots
      = 4 ∧
    (Restaurant.mk 2 [{ line := [0, 2] }, { line := [1] }] (Griddle.mk 4 4 []) 7).cookStep.griddle.cookTimes
      = [] ∧
    (Restaurant.mk 2 [{ line := [0, 2] }, { line := [1] }] (Griddle.mk 4 4 []) 7).cookStep.counters
      = [{ line := [0, 2] }, { line := [1] }] :=
  ⟨(empty_resource_tick
      (Restaurant.mk 2 [{ line := [0, 2] }, { line := [1] }] (Griddle.mk 4 4 []) 7) rfl).2.1
      (by decide),
   (empty_resource_tick
      (Restaurant.mk 2 [{ line := [0, 2] }, { line := [1] }] (Griddle.mk 4 4 []) 7) rfl).2.2.2.1,
   (empty_resource_tick
      (Restaurant.mk 2 [{ line := [0, 2] }, { line := [1] }] (Griddle.mk 4 4 []) 7) rfl).2.2.2.2.1,
   (empty_resource_tick
      (Restaurant.mk 2 [{ line := [0, 2] }, { line := [1] }] (Griddle.mk 4 4 []) 7) rfl).2.2.2.2.2.2.1⟩

/-! ### The capacity invariant along interleavings -/

theorem admission_griddle (w : World) (customer : CustomerPtr) :
    (w.admission customer).restaurant.griddle =
      w.restaurant.griddle.addPatty
        (wrapInt (max w.restaurant.griddle.nextAvailableTime (w.memory customer).arrivalTime
          + BURGER_COOK_TIME)) := rfl

theorem cookStep_inv (r : Restaurant) (cap : Int)
    (h : r.griddle.capacity = cap ∧ 0 ≤ r.griddle.availableSpots ∧
      r.griddle.capacity - r.griddle.availableSpots = r.griddle.cookTimes.length) :
    r.cookStep.griddle.capacity = cap ∧ 0 ≤ r.cookStep.griddle.availableSpots ∧
      r.cookStep.griddle.capacity - r.cookStep.griddle.availableSpots
        = r.cookStep.griddle.cookTimes.length := by
  by_cases hrel : r.griddle.cookTimes ≠ [] ∧ pqTop r.griddle.cookTimes ≤ r.currentTime
  · rw [cookStep_griddle_release r hrel.1 hrel.2]
    have hlen := pqPop_length _ hrel.1
    simp only
    refine ⟨h.1, by omega, by omega⟩
  · have hkeep : r.cookStep.griddle = r.griddle := by
      apply cookStep_griddle_keep
      by_cases hne : r.griddle.cookTimes = []
      · exact Or.inl hne
      · exact Or.inr (not_le.mp (fun hle => hrel ⟨hne, hle⟩))
    rw [hkeep]
    exact h

theorem step_inv (s t : Sys) (a : Action) (cap : Int) (hstep : s.step a = some t)
    (h : s.world.restaurant.griddle.capacity = cap ∧
      0 ≤ s.world.restaurant.griddle.availableSpots ∧
      s.world.restaurant.griddle.capacity - s.world.restaurant.griddle.availableSpots
        = s.world.restaurant.griddle.cookTimes.length) :
    t.world.restaurant.griddle.capacity = cap ∧
      0 ≤ t.world.restaurant.griddle.availableSpots ∧
      t.world.restaurant.griddle.capacity - t.world.restaurant.griddle.availableSpots
        = t.world.restaurant.griddle.cookTimes.length := by
  cases a with
  | arrive i customer =>
    simp only [Sys.step] at hstep
    split at hstep
    · cases hstep; exact h
    · cases hstep
  | pop i =>
    simp only [Sys.step] at hstep
    split at hstep
    · cases hstep; exact h
    · cases hstep
  | admission =>
    simp only [Sys.step] at hstep
    split at hstep
    · split at hstep
      · cases hstep
      · rename_i hfull
        cases hstep
        simp only [Griddle.isFull, beq_iff_eq] at hfull
        simp only [admission_griddle, Griddle.addPatty, pqPush, List.length_cons]
        push_cast
        refine ⟨h.1, by omega, by omega⟩
    · cases hstep
  | clock =>
    simp only [Sys.step] at hstep
    cases hstep
    exact cookStep_inv _ cap h

theorem run_inv (acts : List Action) (cap : Int) :
    ∀ s t : Sys, s.run acts = some t →
      (s.world.restaurant.griddle.capacity = cap ∧
        0 ≤ s.world.restaurant.griddle.availableSpots ∧
        s.world.restaurant.griddle.capacity - s.world.restaurant.griddle.availableSpots
          = s.world.restaurant.griddle.cookTimes.length) →
      t.world.restaurant.griddle.capacity = cap ∧
        0 ≤ t.world.restaurant.griddle.availableSpots ∧
        t.world.restaurant.griddle.capacity - t.world.restaurant.griddle.availableSpots
          = t.world.restaurant.griddle.cookTimes.length := by
  induction acts with
  | nil =>
    intro s t hrun h
    simp only [Sys.run] at hrun
    cases hrun
    exact h
  | cons a rest ih =>
    intro s t hrun h
    simp only [Sys.run] at hrun
    split at hrun
    · cases hrun
    · rename_i u hu
      exact ih u t hrun (step_inv s u a cap hu h)

theorem run_append (a : List Action) :
    ∀ (s t : Sys) (b : List Action), s.run a = some t → s.run (a ++ b) = t.run b := by
  induction a with
  | nil =>
    intro s t b h
    simp only [Sys.run] at h
    cases h
    rfl
  | cons x rest ih =>
    intro s t b h
    simp only [Sys.run, List.cons_append] at h ⊢
    split at h
    · cases h
    · rename_i u hu
      exact ih u t b h

theorem run_clocks (k : Nat) :
    ∀ s : Sys, s.run (List.replicate k Action.clock) =
      some { s with world :=
        { s.world with restaurant := Restaurant.cookSteps k s.world.restaurant } } := by
  induction k with
  | zero => intro s; rfl
  | succ k ih =>
    intro s
    simp only [List.replicate_succ, Sys.run, Sys.step]
    rw [ih]
    rfl

/-- A visit of `processOrders` to a counter is a sequence of actions of the
interleaving model: nothing, or a pop, the clock iterations of the wait, and
the admission. -/
theorem visitCounter_run (w w1 : World) (ticks i : Nat)
    (h : w.visitCounter ticks i = some w1) :
    ∃ acts, Sys.run { world := w, holding := none } acts
      = some { world := w1, holding := none } := by
  simp only [World.visitCounter] at h
  split at h
  · cases h
    exact ⟨[], rfl⟩
  · split at h
    · cases h
    · rename_i customer counter hserve
      split at h
      · cases h
      · rename_i r hwait
        cases h
        simp only [Restaurant.cvWait] at hwait
        split at hwait
        · rename_i hfull
          split at hwait
          · cases hwait
          · rename_i hnot
            cases hwait
            refine ⟨Action.pop i :: (List.replicate ticks Action.clock ++ [Action.admission]), ?_⟩
            simp only [Sys.run, Sys.step, hserve]
            rw [run_append _ _ _ _ (run_clocks ticks _)]
            simp only [Sys.run, Sys.step]
            rw [if_neg hnot]
        · rename_i hnot
          cases hwait
          refine ⟨[Action.pop i, Action.admission], ?_⟩
          simp only [Sys.run, Sys.step, hserve]
          rw [if_neg hnot]

theorem processOrdersLoop_run (sched : Nat → Nat) (n : Nat) :
    ∀ (i : Nat) (w w1 : World), World.processOrdersLoop sched n i w = some w1 →
      ∃ acts, Sys.run { world := w, holding := none } acts
        = some { world := w1, holding := none } := by
  induction n with
  | zero =>
    intro i w w1 h
    simp only [World.processOrdersLoop] at h
    cases h
    exact ⟨[], rfl⟩
  | succ n ih =>
    intro i w w1 h
    simp only [World.processOrdersLoop] at h
    split at h
    · cases h
    · rename_i w2 hvisit
      obtain ⟨a1, h1⟩ := visitCounter_run w w2 (sched i) i hvisit
      obtain ⟨a2, h2⟩ := ih (i + 1) w2 w1 h
      exact ⟨a1 ++ a2, by rw [run_append a1 _ _ a2 h1]; exact h2⟩

/-- Every completed call of `processOrders` is an interleaving of pops,
admissions and clock steps of the model `Sys.run`. -/
theorem processOrders_run (w w1 : World) (sched : Nat → Nat)
    (h : w.processOrders sched = some w1) :
    ∃ acts, Sys.run { world := w, holding := none } acts
      = some { world := w1, holding := none } :=
  processOrdersLoop_run sched _ 0 w w1 h

/-- C3: in every state reached from a freshly constructed restaurant with
`griddleCapacity >= 1` by any sequence of arrivals, pops, admissions (which pass
the wait only when the griddle is not full) and clock steps, the number of
pending ticks is `capacity - availableSpots` and never exceeds the capacity,
`0 <= availableSpots <= capacity`, and an admission that happens there finds
the griddle not full and keeps the bound. -/
theorem capacity_bound (numCounters griddleCapacity : Int) (r0 : Restaurant)
    (memory : Memory) (acts : List Action) (s : Sys)
    (hcap : 1 ≤ griddleCapacity)
    (hnew : Restaurant.new numCounters griddleCapacity = some r0)
    (hrun : Sys.run
      { world := { restaurant := r0, memory := memory, output := [] }, holding := none }
      acts = some s) :
    s.world.restaurant.griddle.capacity = griddleCapacity ∧
    0 ≤ s.world.restaurant.griddle.availableSpots ∧
    s.world.restaurant.griddle.availableSpots ≤ s.world.restaurant.griddle.capacity ∧
    (s.world.restaurant.griddle.cookTimes.length : Int)
      = s.world.restaurant.griddle.capacity - s.world.restaurant.griddle.availableSpots ∧
    (s.world.restaurant.griddle.cookTimes.length : Int) ≤ s.world.restaurant.griddle.capacity ∧
    (∀ t, s.step Action.admission = some t →
      s.world.restaurant.griddle.isFull = false ∧
      (t.world.restaurant.griddle.cookTimes.length : Int)
        ≤ t.world.restaurant.griddle.capacity) := by
  have h0 : r0.griddle.capacity = griddleCapacity ∧ 0 ≤ r0.griddle.availableSpots ∧
      r0.griddle.capacity - r0.griddle.availableSpots = r0.griddle.cookTimes.length := by
    simp only [Restaurant.new] at hnew
    split at hnew
    · cases hnew
    · cases hnew
      refine ⟨rfl, ?_, ?_⟩
      · show 0 ≤ griddleCapacity
        omega
      · show griddleCapacity - griddleCapacity = ((([] : List Int).length : Nat) : Int)
        simp
  have hs := run_inv acts griddleCapacity _ s hrun h0
  refine ⟨hs.1, hs.2.1, by omega, by omega, by omega, ?_⟩
  intro t ht
  have hti := step_inv s t Action.admission griddleCapacity ht hs
  refine ⟨?_, by omega⟩
  simp only [Sys.step] at ht
  split at ht
  · split at ht
    · cases ht
    · rename_i hfull
      simpa using hfull
  · cases ht

/-- Witness for C3: three counters, capacity 1; customer 1 arrives at counter 0,
is popped and admitted, and the clock ticks once. -/
theorem capacity_bound_witness :
    (1 : Int) ≤ 1 ∧
    Restaurant.new 3 1 = some (Restaurant.mk 3 [{ line := [] }, { line := [] }, { line := [] }] (Griddle.mk 1 1 []) 0) ∧
    Sys.run (Sys.mk (World.mk (Restaurant.mk 3 [{ line := [] }, { line := [] }, { line := [] }] (Griddle.mk 1 1 []) 0) mainCustomers []) none)
        [Action.arrive 0 0, Action.pop 0, Action.admission, Action.clock]
      = some (Sys.mk (World.mk (Restaurant.mk 3 [{ line := [] }, { line := [] }, { line := [] }]
        (Griddle.mk 1 0 [10]) 1) (Function.update mainCustomers 0 (Customer.mk 1 0 11))
        [(1, 11)]) none) ∧
    (Sys.mk (World.mk (Restaurant.mk 3 [{ line := [] }, { line := [] }, { line := [] }]
        (Griddle.mk 1 0 [10]) 1) (Function.update mainCustomers 0 (Customer.mk 1 0 11))
        [(1, 11)]) none).world.restaurant.griddle.availableSpots
      ≤ (Sys.mk (World.mk (Restaurant.mk 3 [{ line := [] }, { line := [] }, { line := [] }]
        (Griddle.mk 1 0 [10]) 1) (Function.update mainCustomers 0 (Customer.mk 1 0 11))
        [(1, 11)]) none).world.restaurant.griddle.capacity ∧
    ((Sys.mk (World.mk (Restaurant.mk 3 [{ line := [] }, { line := [] }, { line := [] }]
        (Griddle.mk 1 0 [10]) 1) (Function.update mainCustomers 0 (Customer.mk 1 0 11))
        [(1, 11)]) none).world.restaurant.griddle.cookTimes.length : Int)
      ≤ (Sys.mk (World.mk (Restaurant.mk 3 [{ line := [] }, { line := [] }, { line := [] }]
        (Griddle.mk 1 0 [10]) 1) (Function.update mainCustomers 0 (Customer.mk 1 0 11))
        [(1, 11)]) none).world.restaurant.griddle.capacity :=
  ⟨by decide, rfl, rfl,
    (capacity_bound 3 1 (Restaurant.mk 3 [{ line := [] }, { line := [] }, { line := [] }] (Griddle.mk 1 1 []) 0) mainCustomers
      [Action.arrive 0 0, Action.pop 0, Action.admission, Action.clock]
      (Sys.mk (World.mk (Restaurant.mk 3 [{ line := [] }, { line := [] }, { line := [] }]
        (Griddle.mk 1 0 [10]) 1) (Function.update mainCustomers 0 (Customer.mk 1 0 11))
        [(1, 11)]) none)
      (by decide) rfl rfl).2.2.1,
    (capacity_bound 3 1 (Restaurant.mk 3 [{ line := [] }, { line := [] }, { line := [] }] (Griddle.mk 1 1 []) 0) mainCustomers
      [Action.arrive 0 0, Action.pop 0, Action.admission, Action.clock]
      (Sys.mk (World.mk (Restaurant.mk 3 [{ line := [] }, { line := [] }, { line := [] }]
        (Griddle.mk 1 0 [10]) 1) (Function.update mainCustomers 0 (Customer.mk 1 0 11))
        [(1, 11)]) none)
      (by decide) rfl rfl).2.2.2.2.1⟩

/-! ### A pass over empty queues -/

theorem getD_line_of_all_empty (cs : List Counter) :
    (∀ c ∈ cs, c.line = []) → ∀ i : Nat, (cs.getD i { line := [] }).line = [] := by
  induction cs with
  | nil => intro _ i; rfl
  | cons c cs ih =>
    intro h i
    cases i with
    | zero => exact h c (List.mem_cons_self c cs)
    | succ i => exact ih (fun x hx => h x (List.mem_cons_of_mem c hx)) i

theorem visitCounter_of_all_empty (w : World)
    (h : ∀ c ∈ w.restaurant.counters, c.line = []) (ticks i : Nat) :
    w.visitCounter ticks i = some w := by
  simp only [World.visitCounter, getD_line_of_all_empty _ h i, List.isEmpty_nil, if_true]

theorem processOrdersLoop_of_all_empty (sched : Nat → Nat) (n : Nat) :
    ∀ (i : Nat) (w : World), (∀ c ∈ w.restaurant.counters, c.line = []) →
      World.processOrdersLoop sched n i w = some w := by
  induction n with
  | zero => intro i w _; rfl
  | succ n ih =>
    intro i w h
    simp only [World.processOrdersLoop, visitCounter_of_all_empty w h]
    exact ih (i + 1) w h

/-- C11: when all counter queues are empty, `processOrders` completes whatever the
schedule of the clock and whatever the occupancy of the griddle (so it never
reaches the wait, which on a full griddle would block it), admits nobody, and
leaves the queues, the griddle, `currentTime`, the customers and the output
unchanged. -/
theorem empty_queues_pass (w : World) (sched : Nat → Nat)
    (h : ∀ c ∈ w.restaurant.counters, c.line = []) :
    w.processOrders sched = some w :=
  processOrdersLoop_of_all_empty sched _ 0 w h

/-- Witness for C11: two empty counters and a full griddle that no clock step
frees within the schedule. -/
theorem empty_queues_pass_witness :
    (Restaurant.mk 2 [{ line := [] }, { line := [] }] (Griddle.mk 1 0 [50]) 3).griddle.isFull
      = true ∧
    World.processOrders
        (World.mk (Restaurant.mk 2 [{ line := [] }, { line := [] }] (Griddle.mk 1 0 [50]) 3)
          mainCustomers [])
        (fun _ => 0)
      = some (World.mk
          (Restaurant.mk 2 [{ line := [] }, { line := [] }] (Griddle.mk 1 0 [50]) 3)
          mainCustomers []) :=
  ⟨rfl, empty_queues_pass
    (World.mk (Restaurant.mk 2 [{ line := [] }, { line := [] }] (Griddle.mk 1 0 [50]) 3)
      mainCustomers [])
    (fun _ => 0) (by decide)⟩

/-! ### The earliest pending tick -/

theorem nextAvailableTime_of_nil (g : Griddle) (h : g.cookTimes = []) :
    g.nextAvailableTime = 0 := by
  simp only [Griddle.nextAvailableTime, h, List.isEmpty_nil, if_true]

/-- C14: `nextAvailableTime` returns the sentinel 0 when no tick is pending, and
otherwise the minimum of the pending ticks (those added by `addPatty` and not
yet removed by `releaseSpot`): a pending tick that no pending tick is below.
It is a function of the griddle and changes nothing.  After `addPatty` of 30,
10, 20 on a fresh griddle it is 10, and after one `releaseSpot` more it is 20. -/
theorem nextAvailableTime_spec :
    (∀ g : Griddle, g.cookTimes = [] → g.nextAvailableTime = 0) ∧
    (∀ g : Griddle, g.cookTimes ≠ [] →
      g.nextAvailableTime ∈ g.cookTimes ∧ ∀ x ∈ g.cookTimes, g.nextAvailableTime ≤ x) ∧
    ((Griddle.new 4).calls
      [GriddleOp.addPatty 30, GriddleOp.addPatty 10, GriddleOp.addPatty 20]).nextAvailableTime
      = 10 ∧
    ((Griddle.new 4).calls
      [GriddleOp.addPatty 30, GriddleOp.addPatty 10, GriddleOp.addPatty 20,
       GriddleOp.releaseSpot]).nextAvailableTime = 20 ∧
    ((Griddle.new 4).calls
      [GriddleOp.addPatty 30, GriddleOp.releaseSpot]).nextAvailableTime = 0 := by
  refine ⟨nextAvailableTime_of_nil, ?_, by decide, by decide, by decide⟩
  intro g hne
  rw [nextAvailableTime_of_ne g hne]
  exact ⟨pqTop_mem _ hne, pqTop_le _⟩

/-- Witness for C14: the pending ticks 30, 10, 20. -/
theorem nextAvailableTime_spec_witness :
    (Griddle.mk 4 1 [20, 10, 30]).nextAvailableTime ∈ (Griddle.mk 4 1 [20, 10, 30]).cookTimes ∧
    ∀ x ∈ (Griddle.mk 4 1 [20, 10, 30]).cookTimes,
      (Griddle.mk 4 1 [20, 10, 30]).nextAvailableTime ≤ x :=
  nextAvailableTime_spec.2.1 (Griddle.mk 4 1 [20, 10, 30]) (by decide)

/-! ### Admissions and the minimum of the griddle -/

theorem pqTop_cons_of_lt (q : List Int) (hne : q ≠ []) (f : Int) (h : pqTop q < f) :
    pqTop (f :: q) = pqTop q := by
  have hm := pqTop_mem (f :: q) (List.cons_ne_nil f q)
  have hle : pqTop (f :: q) ≤ pqTop q :=
    pqTop_le (f :: q) _ (List.mem_cons_of_mem f (pqTop_mem q hne))
  rcases List.mem_cons.mp hm with heq | hmem
  · omega
  · exact le_antisymm hle (pqTop_le q _ hmem)

/-- C19, the claim at an arrival time near the top of `int`: admitting a customer
who arrives at 2147483642 on an empty griddle lowers `nextAvailableTime` from
the sentinel 0 to -2147483644, which is not `max(0, arrivalTime) + 10`. -/
theorem admission_keeps_minimum_counterexample :
    IsInt 2147483642 ∧
    (World.mk (Restaurant.mk 1 [{ line := [0] }] (Griddle.new 4) 0)
      (fun _ => Customer.new 1 2147483642) []).restaurant.griddle.nextAvailableTime = 0 ∧
    ((World.mk (Restaurant.mk 1 [{ line := [0] }] (Griddle.new 4) 0)
      (fun _ => Customer.new 1 2147483642) []).admission 0).restaurant.griddle.nextAvailableTime
      = -2147483644 ∧
    ¬ ((0 : Int) ≤ -2147483644) ∧
    ¬ ((-2147483644 : Int) = max 0 2147483642 + 10) := by
  decide

/-- C19 as amended: an admission whose finish time `max(e, a) + 10` is within the
range of `int` never lowers `nextAvailableTime`.  When a tick was pending the
minimum is unchanged, the new finish time being at least 10 above it; when
none was pending the value goes from the sentinel 0 to
`max(0, arrivalTime) + 10`, the tick just added. -/
theorem admission_keeps_minimum (w : World) (customer : CustomerPtr)
    (hfin : IsInt
      (max w.restaurant.griddle.nextAvailableTime (w.memory customer).arrivalTime + 10)) :
    w.restaurant.griddle.nextAvailableTime
      ≤ (w.admission customer).restaurant.griddle.nextAvailableTime ∧
    (w.restaurant.griddle.cookTimes ≠ [] →
      (w.admission customer).restaurant.griddle.nextAvailableTime
        = w.restaurant.griddle.nextAvailableTime ∧
      (w.admission customer).restaurant.griddle.cookTimes
        = (max w.restaurant.griddle.nextAvailableTime (w.memory customer).arrivalTime + 10)
            :: w.restaurant.griddle.cookTimes ∧
      w.restaurant.griddle.nextAvailableTime + 10
        ≤ max w.restaurant.griddle.nextAvailableTime (w.memory customer).arrivalTime + 10) ∧
    (w.restaurant.griddle.cookTimes = [] →
      w.restaurant.griddle.nextAvailableTime = 0 ∧
      (w.admission customer).restaurant.griddle.nextAvailableTime
        = max 0 (w.memory customer).arrivalTime + 10) := by
  have hcook : (w.admission customer).restaurant.griddle.cookTimes
      = (max w.restaurant.griddle.nextAvailableTime (w.memory customer).arrivalTime + 10)
          :: w.restaurant.griddle.cookTimes := by
    rw [admission_cookTimes, wrapInt_of_isInt _ hfin]
  have hafter : (w.admission customer).restaurant.griddle.nextAvailableTime
      = pqTop ((max w.restaurant.griddle.nextAvailableTime (w.memory customer).arrivalTime + 10)
          :: w.restaurant.griddle.cookTimes) := by
    rw [nextAvailableTime_of_ne _ (by rw [hcook]; exact List.cons_ne_nil _ _), hcook]
  have hnonempty : w.restaurant.griddle.cookTimes ≠ [] →
      (w.admission customer).restaurant.griddle.nextAvailableTime
        = w.restaurant.griddle.nextAvailableTime := by
    intro hne
    rw [hafter, nextAvailableTime_of_ne _ hne]
    apply pqTop_cons_of_lt _ hne
    have := le_max_left (pqTop w.restaurant.griddle.cookTimes) (w.memory customer).arrivalTime
    omega
  have hempty : w.restaurant.griddle.cookTimes = [] →
      w.restaurant.griddle.nextAvailableTime = 0 ∧
      (w.admission customer).restaurant.griddle.nextAvailableTime
        = max 0 (w.memory customer).arrivalTime + 10 := by
    intro hnil
    have h0 := nextAvailableTime_of_nil _ hnil
    refine ⟨h0, ?_⟩
    rw [hafter, h0, hnil]
    rfl
  refine ⟨?_, fun hne => ⟨hnonempty hne, hcook, ?_⟩, hempty⟩
  · by_cases hne : w.restaurant.griddle.cookTimes = []
    · rw [(hempty hne).1, (hempty hne).2]
      have := le_max_left (0 : Int) (w.memory customer).arrivalTime
      omega
    · rw [hnonempty hne]
  · exact add_le_add_right (le_max_left _ _) 10

/-- Witness for C19 as amended: customer 1 of `main` (arrival 0) admitted on a
griddle holding the ticks 20 and 10. -/
theorem admission_keeps_minimum_witness :
    ((World.mk (Restaurant.mk 1 [{ line := [] }] (Griddle.mk 4 2 [20, 10]) 0)
        mainCustomers []).admission 0).restaurant.griddle.nextAvailableTime
      = (Griddle.mk 4 2 [20, 10]).nextAvailableTime ∧
    ((World.mk (Restaurant.mk 1 [{ line := [] }] (Griddle.mk 4 2 [20, 10]) 0)
        mainCustomers []).admission 0).restaurant.griddle.cookTimes
      = (max (Griddle.mk 4 2 [20, 10]).nextAvailableTime (mainCustomers 0).arrivalTime + 10)
          :: [20, 10] ∧
    (Griddle.mk 4 2 [20, 10]).nextAvailableTime + 10
      ≤ max (Griddle.mk 4 2 [20, 10]).nextAvailableTime (mainCustomers 0).arrivalTime + 10 :=
  (admission_keeps_minimum
    (World.mk (Restaurant.mk 1 [{ line := [] }] (Griddle.mk 4 2 [20, 10]) 0) mainCustomers [])
    0 (by decide)).2.1 (by decide)

/-- C20: absent `int` overflow (the wait time `max(e, a) + 10 + 1 - a` being
within the range of `int`), the wait time set by an admission is at least
`BURGER_TOTAL_TIME`, which is 11 and `BURGER_COOK_TIME + 1`, with equality
exactly when the arrival time is at least `nextAvailableTime` at the admission;
it is determined by the pending ticks and the arrival time alone, so it depends
neither on `currentTime` nor on the number of free slots. -/
theorem wait_time_floor :
    BURGER_TOTAL_TIME = 11 ∧ BURGER_TOTAL_TIME = BURGER_COOK_TIME + 1 ∧
    (∀ (w : World) (customer : CustomerPtr),
      IsInt (max w.restaurant.griddle.nextAvailableTime (w.memory customer).arrivalTime
        + 10 + 1 - (w.memory customer).arrivalTime) →
      BURGER_TOTAL_TIME ≤ ((w.admission customer).memory customer).waitTime ∧
      (((w.admission customer).memory customer).waitTime = BURGER_TOTAL_TIME ↔
        w.restaurant.griddle.nextAvailableTime ≤ (w.memory customer).arrivalTime)) ∧
    (∀ (w1 w2 : World) (c1 c2 : CustomerPtr),
      w1.restaurant.griddle.cookTimes = w2.restaurant.griddle.cookTimes →
      (w1.memory c1).arrivalTime = (w2.memory c2).arrivalTime →
      ((w1.admission c1).memory c1).waitTime = ((w2.admission c2).memory c2).waitTime) := by
  refine ⟨rfl, rfl, ?_, ?_⟩
  · intro w customer hint
    rw [admission_waitTime_exact w customer hint]
    simp only [BURGER_TOTAL_TIME]
    rcases le_total w.restaurant.griddle.nextAvailableTime (w.memory customer).arrivalTime
      with h | h
    · rw [max_eq_right h]
      constructor
      · omega
      · constructor
        · intro _; exact h
        · intro _; omega
    · rw [max_eq_left h]
      constructor
      · omega
      · constructor
        · intro heq; omega
        · intro hle; omega
  · intro w1 w2 c1 c2 hq ha
    rw [admission_waitTime, admission_waitTime]
    simp only [Griddle.nextAvailableTime, hq, ha]

/-- Witness for C20: customer 3 of `main` (arrival 4) admitted on the pending
ticks 20 and 10 waits 17 minutes, at least 11; and the same pending ticks and
arrival time, with different clocks, capacities and free slots, give the same
wait time. -/
theorem wait_time_floor_witness :
    BURGER_TOTAL_TIME ≤
      (((World.mk (Restaurant.mk 1 [{ line := [] }] (Griddle.mk 4 2 [20, 10]) 0)
        mainCustomers []).admission 2).memory 2).waitTime ∧
    (((World.mk (Restaurant.mk 1 [{ line := [] }] (Griddle.mk 4 2 [20, 10]) 0)
        mainCustomers []).admission 2).memory 2).waitTime
      = (((World.mk (Restaurant.mk 3 [] (Griddle.mk 9 5 [20, 10]) 77)
        mainCustomers [(1, 11)]).admission 2).memory 2).waitTime :=
  ⟨(wait_time_floor.2.2.1
      (World.mk (Restaurant.mk 1 [{ line := [] }] (Griddle.mk 4 2 [20, 10]) 0) mainCustomers [])
      2 (by decide)).1,
   wait_time_floor.2.2.2
    (World.mk (Restaurant.mk 1 [{ line := [] }] (Griddle.mk 4 2 [20, 10]) 0) mainCustomers [])
    (World.mk (Restaurant.mk 3 [] (Griddle.mk 9 5 [20, 10]) 77) mainCustomers [(1, 11)])
    2 2 rfl rfl⟩

/-! ### The clock along executions -/

theorem step_currentTime (s t : Sys) (a : Action) (h : s.step a = some t) :
    t.world.restaurant.currentTime
      = if a = Action.clock then wrapInt (s.world.restaurant.currentTime + 1)
        else s.world.restaurant.currentTime := by
  cases a with
  | arrive i customer =>
    simp only [Sys.step] at h
    split at h
    · cases h; simp
    · cases h
  | pop i =>
    simp only [Sys.step] at h
    split at h
    · cases h; simp
    · cases h
  | admission =>
    simp only [Sys.step] at h
    split at h
    · split at h
      · cases h
      · cases h; simp [World.admission]
    · cases h
  | clock =>
    simp only [Sys.step] at h
    cases h
    simp [Restaurant.cookStep]

theorem run_currentTime (acts : List Action) :
    ∀ s t : Sys, IsInt s.world.restaurant.currentTime → s.run acts = some t →
      t.world.restaurant.currentTime
        = wrapInt (s.world.restaurant.currentTime + (acts.count Action.clock : Nat)) := by
  induction acts with
  | nil =>
    intro s t hint h
    simp only [Sys.run] at h
    cases h
    simp only [List.count_nil, Nat.cast_zero, add_zero]
    exact (wrapInt_of_isInt _ hint).symm
  | cons a rest ih =>
    intro s t hint h
    simp only [Sys.run] at h
    split at h
    · cases h
    · rename_i u hu
      have hstep := step_currentTime s u a hu
      by_cases ha : a = Action.clock
      · subst ha
        rw [if_pos rfl] at hstep
        rw [ih u t (by rw [hstep]; exact wrapInt_isInt _) h, hstep, List.count_cons]
        simp only [beq_self_eq_true, if_true, Nat.cast_add, Nat.cast_one, wrapInt]
        omega
      · rw [if_neg ha] at hstep
        have hb : (a == Action.clock) = false := by simpa using ha
        rw [ih u t (by rw [hstep]; exact hint) h, hstep, List.count_cons]
        simp only [hb, Bool.false_eq_true, if_false, add_zero]

theorem route_currentTime (r : Restaurant) (customer : CustomerPtr) :
    (r.route customer).currentTime = r.currentTime := rfl

theorem admission_currentTime (w : World) (customer : CustomerPtr) :
    (w.admission customer).restaurant.currentTime = w.restaurant.currentTime := rfl

theorem cookSteps_currentTime (n : Nat) :
    ∀ r : Restaurant, IsInt r.currentTime →
      (Restaurant.cookSteps n r).currentTime = wrapInt (r.currentTime + n) := by
  induction n with
  | zero =>
    intro r hint
    simp only [Restaurant.cookSteps, Nat.cast_zero, add_zero]
    exact (wrapInt_of_isInt _ hint).symm
  | succ n ih =>
    intro r _
    simp only [Restaurant.cookSteps]
    rw [ih r.cookStep (by rw [cookStep_currentTime]; exact wrapInt_isInt _),
      cookStep_currentTime]
    simp only [Nat.cast_add, Nat.cast_one, wrapInt]
    omega

/-- C16, the claim at the top of `int`: at clock 2147483647 a clock step sets
`currentTime` to -2147483648, so the clock decreases and is not the clock plus
1; and from a freshly constructed restaurant 2147483648 clock steps leave
`currentTime` at -2147483648, which is not the number of clock steps taken. -/
theorem clock_monotone_counterexample :
    IsInt 2147483647 ∧
    (Restaurant.mk 1 [{ line := [] }] (Griddle.mk 4 4 []) 2147483647).cookStep.currentTime
      = -2147483648 ∧
    (Restaurant.mk 1 [{ line := [] }] (Griddle.mk 4 4 []) 2147483647).cookStep.currentTime
      < (Restaurant.mk 1 [{ line := [] }] (Griddle.mk 4 4 []) 2147483647).currentTime ∧
    Restaurant.new 1 4 = some (Restaurant.mk 1 [{ line := [] }] (Griddle.mk 4 4 []) 0) ∧
    (Sys.run (Sys.mk (World.mk (Restaurant.mk 1 [{ line := [] }] (Griddle.mk 4 4 []) 0)
        mainCustomers []) none)
      (List.replicate 2147483648 Action.clock)).map
        (fun s => s.world.restaurant.currentTime) = some (-2147483648) ∧
    (List.replicate 2147483648 Action.clock).count Action.clock = 2147483648 := by
  refine ⟨by decide, by decide, by decide, rfl, ?_, List.count_replicate_self _ _⟩
  rw [run_clocks]
  simp only [Option.map_some', Option.some.injEq]
  rw [cookSteps_currentTime _ _ (by decide)]
  decide

/-- C16 as amended: a clock step increases `currentTime` by 1 in `int`, whether or
not a slot is released: by exactly 1 when the clock plus 1 is within the range
of `int`, and from 2147483647 to -2147483648; an admission, a pop, an arrival
and a routing call leave it unchanged; so along every execution from a freshly
constructed restaurant `currentTime` is the number of clock steps taken so far
wrapped into `int`, and as long as that number is at most 2147483647 it is that
number and does not decrease between two states of the execution. -/
theorem clock_monotone :
    (∀ r : Restaurant, r.cookStep.currentTime = wrapInt (r.currentTime + 1)) ∧
    (∀ r : Restaurant, IsInt (r.currentTime + 1) →
      r.cookStep.currentTime = r.currentTime + 1) ∧
    (∀ (w : World) (customer : CustomerPtr),
      (w.admission customer).restaurant.currentTime = w.restaurant.currentTime) ∧
    (∀ (r : Restaurant) (customer : CustomerPtr),
      (r.route customer).currentTime = r.currentTime) ∧
    (∀ (s t : Sys) (a : Action), a ≠ Action.clock → s.step a = some t →
      t.world.restaurant.currentTime = s.world.restaurant.currentTime) ∧
    (∀ (numCounters griddleCapacity : Int) (r0 : Restaurant) (memory : Memory)
      (acts : List Action) (s : Sys),
      Restaurant.new numCounters griddleCapacity = some r0 →
      Sys.run { world := { restaurant := r0, memory := memory, output := [] },
                holding := none } acts = some s →
      s.world.restaurant.currentTime = wrapInt (acts.count Action.clock : Nat) ∧
      (((acts.count Action.clock : Nat) : Int) ≤ INT_MAX →
        s.world.restaurant.currentTime = (acts.count Action.clock : Nat))) ∧
    (∀ (numCounters griddleCapacity : Int) (r0 : Restaurant) (memory : Memory)
      (first rest : List Action) (t u : Sys),
      Restaurant.new numCounters griddleCapacity = some r0 →
      Sys.run { world := { restaurant := r0, memory := memory, output := [] },
                holding := none } first = some t →
      t.run rest = some u →
      ((((first ++ rest).count Action.clock : Nat) : Int) ≤ INT_MAX) →
      t.world.restaurant.currentTime ≤ u.world.restaurant.currentTime ∧
      u.world.restaurant.currentTime = ((first ++ rest).count Action.clock : Nat)) := by
  have hfresh : ∀ (numCounters griddleCapacity : Int) (r0 : Restaurant),
      Restaurant.new numCounters griddleCapacity = some r0 → r0.currentTime = 0 := by
    intro nc cap r0 hnew
    simp only [Restaurant.new] at hnew
    split at hnew
    · cases hnew
    · cases hnew; rfl
  refine ⟨fun r => rfl, fun r h => (cookStep_currentTime r).trans (wrapInt_of_isInt _ h),
    fun w c => rfl, fun r c => rfl, ?_, ?_, ?_⟩
  · intro s t a ha h
    rw [step_currentTime s t a h, if_neg ha]
  · intro nc cap r0 memory acts s hnew hrun
    have h0 := hfresh nc cap r0 hnew
    have h := run_currentTime acts _ s (by show IsInt r0.currentTime; rw [h0]; decide) hrun
    have h1 : s.world.restaurant.currentTime = wrapInt (acts.count Action.clock : Nat) := by
      rw [h]
      show wrapInt (r0.currentTime + _) = _
      rw [h0, zero_add]
    refine ⟨h1, fun hle => ?_⟩
    rw [h1]
    apply wrapInt_of_isInt
    simp only [IsInt, INT_MIN, INT_MAX] at hle ⊢
    omega
  · intro nc cap r0 memory first rest t u hnew h1 h2 hle
    have h0 := hfresh nc cap r0 hnew
    have hint0 : IsInt r0.currentTime := by rw [h0]; decide
    have ht := run_currentTime first _ t hint0 h1
    have ht' : t.world.restaurant.currentTime = wrapInt (first.count Action.clock : Nat) := by
      rw [ht]
      show wrapInt (r0.currentTime + _) = _
      rw [h0, zero_add]
    have hu := run_currentTime rest t u (by rw [ht']; exact wrapInt_isInt _) h2
    rw [List.count_append] at hle ⊢
    simp only [INT_MAX] at hle
    push_cast at hle ⊢
    rw [hu, ht']
    simp only [wrapInt]
    omega

/-- Witness for C16 as amended: from a fresh restaurant, an arrival, a clock step,
a pop, an admission and two clock steps leave the clock at 3. -/
theorem clock_monotone_witness :
    (Sys.mk (World.mk (Restaurant.mk 1 [{ line := [] }] (Griddle.mk 1 0 [10]) 3)
        (Function.update mainCustomers 0 (Customer.mk 1 0 11)) [(1, 11)])
      none).world.restaurant.currentTime
      = ((([Action.arrive 0 0, Action.clock, Action.pop 0, Action.admission, Action.clock,
            Action.clock] : List Action).count Action.clock : Nat) : Int) :=
  (clock_monotone.2.2.2.2.2.1 1 1
    (Restaurant.mk 1 [{ line := [] }] (Griddle.mk 1 1 []) 0) mainCustomers
    [Action.arrive 0 0, Action.clock, Action.pop 0, Action.admission, Action.clock,
      Action.clock]
    (Sys.mk (World.mk (Restaurant.mk 1 [{ line := [] }] (Griddle.mk 1 0 [10]) 3)
        (Function.update mainCustomers 0 (Customer.mk 1 0 11)) [(1, 11)]) none)
    rfl rfl).2 (by decide)

/-! ### A full griddle is freed by the clock -/

theorem cookSteps_succ (n : Nat) :
    ∀ r : Restaurant, Restaurant.cookSteps (n + 1) r = (Restaurant.cookSteps n r).cookStep := by
  induction n with
  | zero => intro r; rfl
  | succ n ih =>
    intro r
    show Restaurant.cookSteps (n + 1) r.cookStep = _
    rw [ih r.cookStep]
    rfl

theorem cookStep_of_keep (r : Restaurant) (h : r.cookStep.griddle = r.griddle) :
    r.cookStep = { r with currentTime := wrapInt (r.currentTime + 1) } := by
  cases r with
  | mk n cs g t =>
    simp only [Restaurant.cookStep] at h ⊢
    rw [h]

theorem cookSteps_before_due (d : Nat) :
    ∀ r : Restaurant, r.griddle.cookTimes ≠ [] → INT_MIN ≤ r.currentTime →
      pqTop r.griddle.cookTimes ≤ INT_MAX →
      (d = 0 ∨ r.currentTime + d ≤ pqTop r.griddle.cookTimes) →
      Restaurant.cookSteps d r = { r with currentTime := r.currentTime + d } := by
  induction d with
  | zero => intro r _ _ _ _; simp [Restaurant.cookSteps]
  | succ d ih =>
    intro r hne hlow htick hle
    have hle1 : r.currentTime + ((d + 1 : Nat) : Int) ≤ pqTop r.griddle.cookTimes := by
      rcases hle with h | h
      · exact absurd h (Nat.succ_ne_zero d)
      · exact h
    push_cast at hle1
    have hwrap : wrapInt (r.currentTime + 1) = r.currentTime + 1 := by
      apply wrapInt_of_isInt
      simp only [IsInt, INT_MIN, INT_MAX] at hlow htick ⊢
      omega
    have hstep : r.cookStep = { r with currentTime := r.currentTime + 1 } := by
      rw [cookStep_of_keep r (cookStep_griddle_keep r (Or.inr (by omega))), hwrap]
    have hrest := ih { r with currentTime := r.currentTime + 1 } hne
      (by show INT_MIN ≤ r.currentTime + 1; omega) htick
      (Or.inr (by show r.currentTime + 1 + (d : Int) ≤ pqTop r.griddle.cookTimes; omega))
    simp only [Restaurant.cookSteps]
    rw [hstep, hrest]
    simp only [Nat.cast_add, Nat.cast_one, Restaurant.mk.injEq, true_and]
    omega

theorem cookSteps_frees (r : Restaurant) (hcap : 1 ≤ r.griddle.capacity)
    (hfull : r.griddle.availableSpots = 0)
    (hsize : (r.griddle.cookTimes.length : Int) = r.griddle.capacity)
    (htime : INT_MIN ≤ r.currentTime)
    (htick : pqTop r.griddle.cookTimes ≤ INT_MAX) :
    r.griddle.isFull = true ∧
    (Restaurant.cookSteps
      ((max 0 (pqTop r.griddle.cookTimes - r.currentTime)).toNat + 1) r).griddle.isFull
      = false ∧
    (Restaurant.cookSteps
      ((max 0 (pqTop r.griddle.cookTimes - r.currentTime)).toNat + 1) r).griddle.availableSpots
      = 1 ∧
    r.cvWait ((max 0 (pqTop r.griddle.cookTimes - r.currentTime)).toNat + 1)
      = some (Restaurant.cookSteps
          ((max 0 (pqTop r.griddle.cookTimes - r.currentTime)).toNat + 1) r) := by
  have hne : r.griddle.cookTimes ≠ [] := by
    intro h
    rw [h] at hsize
    simp at hsize
    omega
  have hisfull : r.griddle.isFull = true := by
    simp [Griddle.isFull, hfull]
  have hbefore := cookSteps_before_due
    (max 0 (pqTop r.griddle.cookTimes - r.currentTime)).toNat r hne htime htick
    (by rcases le_total 0 (pqTop r.griddle.cookTimes - r.currentTime) with h | h
        · right
          rw [Int.toNat_of_nonneg (le_max_left _ _), max_eq_right h]
          omega
        · left
          rw [max_eq_left h]
          rfl)
  have hafter : (Restaurant.cookSteps
      ((max 0 (pqTop r.griddle.cookTimes - r.currentTime)).toNat + 1) r).griddle
      = { r.griddle with cookTimes := pqPop r.griddle.cookTimes,
                         availableSpots := r.griddle.availableSpots + 1 } := by
    rw [cookSteps_succ, hbefore]
    have hdue : pqTop r.griddle.cookTimes
        ≤ r.currentTime + ((max 0 (pqTop r.griddle.cookTimes - r.currentTime)).toNat : Int) := by
      rw [Int.toNat_of_nonneg (le_max_left _ _)]
      have := le_max_right 0 (pqTop r.griddle.cookTimes - r.currentTime)
      omega
    exact cookStep_griddle_release
      { r with currentTime := r.currentTime
          + ((max 0 (pqTop r.griddle.cookTimes - r.currentTime)).toNat : Int) } hne hdue
  have hnot : (Restaurant.cookSteps
      ((max 0 (pqTop r.griddle.cookTimes - r.currentTime)).toNat + 1) r).griddle.isFull
      = false := by
    rw [hafter]
    simp [Griddle.isFull, hfull]
  refine ⟨hisfull, hnot, ?_, ?_⟩
  · rw [hafter]
    simp [hfull]
  · simp only [Restaurant.cvWait, hisfull, hnot, if_true, Bool.false_eq_true, if_false]

/-- C18: on a full griddle (capacity at least 1, no free spot, as many pending
ticks as the capacity) with minimum pending tick `m`, the clock alone frees a
spot: after `max(0, m - currentTime) + 1` consecutive clock steps `isFull()` is
false, exactly one spot being free, so a wait of `processOrders` that lasts
that many clock steps ends.  The clock and the tick `m` are values of `int`
(the clock at least `INT_MIN`, the tick at most `INT_MAX`); this covers every
clock value `currentTime >= 0`. -/
theorem full_griddle_freed (r : Restaurant) (hcap : 1 ≤ r.griddle.capacity)
    (hfull : r.griddle.availableSpots = 0)
    (hsize : (r.griddle.cookTimes.length : Int) = r.griddle.capacity)
    (htime : INT_MIN ≤ r.currentTime)
    (htick : pqTop r.griddle.cookTimes ≤ INT_MAX) :
    r.griddle.isFull = true ∧
    (Restaurant.cookSteps
      ((max 0 (pqTop r.griddle.cookTimes - r.currentTime)).toNat + 1) r).griddle.isFull
      = false ∧
    (Restaurant.cookSteps
      ((max 0 (pqTop r.griddle.cookTimes - r.currentTime)).toNat + 1) r).griddle.availableSpots
      = 1 ∧
    r.cvWait ((max 0 (pqTop r.griddle.cookTimes - r.currentTime)).toNat + 1)
      = some (Restaurant.cookSteps
          ((max 0 (pqTop r.griddle.cookTimes - r.currentTime)).toNat + 1) r) :=
  cookSteps_frees r hcap hfull hsize htime htick

/-- Witness for C18: capacity 2, pending ticks 12 and 15, clock 10: three clock
steps free a spot. -/
theorem full_griddle_freed_witness :
    (Restaurant.mk 1 [{ line := [] }] (Griddle.mk 2 0 [15, 12]) 10).griddle.isFull = true ∧
    (Restaurant.cookSteps 3
      (Restaurant.mk 1 [{ line := [] }] (Griddle.mk 2 0 [15, 12]) 10)).griddle.isFull = false ∧
    (Restaurant.cookSteps 3
      (Restaurant.mk 1 [{ line := [] }] (Griddle.mk 2 0 [15, 12]) 10)).griddle.availableSpots
      = 1 ∧
    (Restaurant.mk 1 [{ line := [] }] (Griddle.mk 2 0 [15, 12]) 10).cvWait 3
      = some (Restaurant.cookSteps 3
          (Restaurant.mk 1 [{ line := [] }] (Griddle.mk 2 0 [15, 12]) 10)) :=
  full_griddle_freed (Restaurant.mk 1 [{ line := [] }] (Griddle.mk 2 0 [15, 12]) 10)
    (by decide) rfl rfl (by decide) (by decide)

/-! ### Construction -/

theorem findBestCounterLoop_of_all_empty (r : Restaurant)
    (h : ∀ c ∈ r.counters, c.line = []) (n : Nat) :
    ∀ i b : Nat, r.findBestCounterLoop n i b = b := by
  have hsize : ∀ i, r.lineSize i = 0 := by
    intro i
    simp only [Restaurant.lineSize, Counter.getLineSize, getD_line_of_all_empty _ h i,
      List.length_nil, Nat.cast_zero]
  induction n with
  | zero => intro i b; rfl
  | succ n ih =>
    intro i b
    simp only [Restaurant.findBestCounterLoop, hsize, lt_irrefl, if_false]
    exact ih (i + 1) b

/-- C12, the claim at station count 0 and at capacity 0 or below: the restaurants
`Restaurant(0, 0)`, `Restaurant(3, 0)` and `Restaurant(3, -2)` are constructed,
and `findBestCounter` and `processOrders` run on the restaurant without
counters. -/
theorem construction_counterexample :
    Restaurant.new 0 0 = some (Restaurant.mk 0 [] (Griddle.mk 0 0 []) 0) ∧
    (Restaurant.mk 0 [] (Griddle.mk 0 0 []) 0).findBestCounter = 0 ∧
    (World.processOrders (World.mk (Restaurant.mk 0 [] (Griddle.mk 0 0 []) 0) mainCustomers [])
      (fun _ => 0)).isSome = true ∧
    Restaurant.new 3 0
      = some (Restaurant.mk 3 [{ line := [] }, { line := [] }, { line := [] }]
          (Griddle.mk 0 0 []) 0) ∧
    Restaurant.new 3 (-2)
      = some (Restaurant.mk 3 [{ line := [] }, { line := [] }, { line := [] }]
          (Griddle.mk (-2) (-2) []) 0) := by
  refine ⟨rfl, rfl, rfl, rfl, rfl⟩

/-- C12 as amended: the constructors validate nothing.  Construction fails only
for a negative `numCounters` (the vector of counters cannot be built); for
every `numCounters >= 0`, zero included, and every `griddleCapacity`, zero and
negative values included, it yields `numCounters` empty counters, a griddle
with `availableSpots == capacity == griddleCapacity` and clock 0, and on that
state `findBestCounter` returns 0 and `processOrders` completes, changing
nothing. -/
theorem construction_unvalidated (numCounters griddleCapacity : Int) :
    (Restaurant.new numCounters griddleCapacity = none ↔ numCounters < 0) ∧
    (0 ≤ numCounters →
      ∃ r, Restaurant.new numCounters griddleCapacity = some r ∧
        r.numCounters = numCounters ∧
        (r.counters.length : Int) = numCounters ∧
        (∀ c ∈ r.counters, c.line = []) ∧
        r.griddle = Griddle.mk griddleCapacity griddleCapacity [] ∧
        r.currentTime = 0 ∧
        r.findBestCounter = 0 ∧
        (∀ (memory : Memory) (output : List (Int × Int)) (sched : Nat → Nat),
          World.processOrders { restaurant := r, memory := memory, output := output } sched
            = some { restaurant := r, memory := memory, output := output })) := by
  constructor
  · simp only [Restaurant.new]
    constructor
    · intro h
      by_contra hn
      rw [if_neg hn] at h
      cases h
    · intro h
      rw [if_pos h]
  · intro h0
    have hempty : ∀ c ∈ List.replicate numCounters.toNat ({ line := [] } : Counter),
        c.line = [] := by
      intro c hc
      rw [(List.mem_replicate.mp hc).2]
    refine ⟨_, by simp only [Restaurant.new]; rw [if_neg (not_lt.mpr h0)],
      rfl, ?_, hempty, rfl, rfl, ?_, ?_⟩
    · simp only [List.length_replicate]
      exact Int.toNat_of_nonneg h0
    · exact findBestCounterLoop_of_all_empty _ hempty _ 1 0
    · intro memory output sched
      exact processOrdersLoop_of_all_empty sched _ 0 _ hempty

/-- Witness for C12 as amended: `Restaurant(0, 0)`. -/
theorem construction_unvalidated_witness :
    ∃ r, Restaurant.new 0 0 = some r ∧
      r.numCounters = 0 ∧
      (r.counters.length : Int) = 0 ∧
      (∀ c ∈ r.counters, c.line = []) ∧
      r.griddle = Griddle.mk 0 0 [] ∧
      r.currentTime = 0 ∧
      r.findBestCounter = 0 ∧
      (∀ (memory : Memory) (output : List (Int × Int)) (sched : Nat → Nat),
        World.processOrders { restaurant := r, memory := memory, output := output } sched
          = some { restaurant := r, memory := memory, output := output }) :=
  (construction_unvalidated 0 0).2 (by decide)

/-! ### The counter queue -/

theorem cookSteps_inv (n : Nat) (cap : Int) :
    ∀ r : Restaurant,
      (r.griddle.capacity = cap ∧ 0 ≤ r.griddle.availableSpots ∧
        r.griddle.capacity - r.griddle.availableSpots = r.griddle.cookTimes.length) →
      (Restaurant.cookSteps n r).griddle.capacity = cap ∧
        0 ≤ (Restaurant.cookSteps n r).griddle.availableSpots ∧
        (Restaurant.cookSteps n r).griddle.capacity
            - (Restaurant.cookSteps n r).griddle.availableSpots
          = (Restaurant.cookSteps n r).griddle.cookTimes.length := by
  induction n with
  | zero => intro r h; exact h
  | succ n ih =>
    intro r h
    exact ih r.cookStep (cookStep_inv r cap h)

theorem cookStep_range (r : Restaurant)
    (h : INT_MIN ≤ r.currentTime ∧ ∀ x ∈ r.griddle.cookTimes, x ≤ INT_MAX) :
    INT_MIN ≤ r.cookStep.currentTime ∧ ∀ x ∈ r.cookStep.griddle.cookTimes, x ≤ INT_MAX := by
  refine ⟨by rw [cookStep_currentTime]; exact (wrapInt_isInt _).1, ?_⟩
  by_cases hrel : r.griddle.cookTimes ≠ [] ∧ pqTop r.griddle.cookTimes ≤ r.currentTime
  · rw [cookStep_griddle_release r hrel.1 hrel.2]
    intro x hx
    exact h.2 x (List.mem_of_mem_erase hx)
  · have hkeep : r.cookStep.griddle = r.griddle := by
      apply cookStep_griddle_keep
      by_cases hne : r.griddle.cookTimes = []
      · exact Or.inl hne
      · exact Or.inr (not_le.mp (fun hle => hrel ⟨hne, hle⟩))
    rw [hkeep]
    exact h.2

theorem cookSteps_range (n : Nat) :
    ∀ r : Restaurant,
      (INT_MIN ≤ r.currentTime ∧ ∀ x ∈ r.griddle.cookTimes, x ≤ INT_MAX) →
      INT_MIN ≤ (Restaurant.cookSteps n r).currentTime ∧
        ∀ x ∈ (Restaurant.cookSteps n r).griddle.cookTimes, x ≤ INT_MAX := by
  induction n with
  | zero => intro r h; exact h
  | succ n ih =>
    intro r h
    exact ih r.cookStep (cookStep_range r h)

theorem visitCounter_total (w : World) (i : Nat) (cap : Int) (hcap : 1 ≤ cap)
    (h : w.restaurant.griddle.capacity = cap ∧ 0 ≤ w.restaurant.griddle.availableSpots ∧
      w.restaurant.griddle.capacity - w.restaurant.griddle.availableSpots
        = w.restaurant.griddle.cookTimes.length)
    (hrange : INT_MIN ≤ w.restaurant.currentTime ∧
      ∀ x ∈ w.restaurant.griddle.cookTimes, x ≤ INT_MAX) :
    ∃ (ticks : Nat) (w1 : World), w.visitCounter ticks i = some w1 ∧
      (w1.restaurant.griddle.capacity = cap ∧ 0 ≤ w1.restaurant.griddle.availableSpots ∧
        w1.restaurant.griddle.capacity - w1.restaurant.griddle.availableSpots
          = w1.restaurant.griddle.cookTimes.length) ∧
      (INT_MIN ≤ w1.restaurant.currentTime ∧
        ∀ x ∈ w1.restaurant.griddle.cookTimes, x ≤ INT_MAX) := by
  cases hl : (w.restaurant.counters.getD i { line := [] }).line with
  | nil =>
    refine ⟨0, w, ?_, h, hrange⟩
    simp only [World.visitCounter, hl, List.isEmpty_nil, if_true]
  | cons c rest =>
    have hserve : (w.restaurant.counters.getD i { line := [] }).serveCustomer
        = (some c, { line := rest }) := by
      simp only [Counter.serveCustomer, hl]
    have hwait : ∃ (ticks : Nat) (r : Restaurant),
        Restaurant.cvWait
          { w.restaurant with counters := w.restaurant.counters.set i { line := rest } } ticks
          = some r ∧ r.griddle.isFull = false ∧
        (r.griddle.capacity = cap ∧ 0 ≤ r.griddle.availableSpots ∧
          r.griddle.capacity - r.griddle.availableSpots = r.griddle.cookTimes.length) ∧
        (INT_MIN ≤ r.currentTime ∧ ∀ x ∈ r.griddle.cookTimes, x ≤ INT_MAX) := by
      by_cases hfull : w.restaurant.griddle.availableSpots = 0
      · have hne : w.restaurant.griddle.cookTimes ≠ [] := by
          intro hnil
          have := h.2.2
          rw [hnil] at this
          simp at this
          omega
        have hfree := cookSteps_frees
          { w.restaurant with counters := w.restaurant.counters.set i { line := rest } }
          (by show 1 ≤ w.restaurant.griddle.capacity; omega) hfull
          (by show (w.restaurant.griddle.cookTimes.length : Int) = w.restaurant.griddle.capacity
              omega)
          hrange.1 (hrange.2 _ (pqTop_mem _ hne))
        exact ⟨_, _, hfree.2.2.2, hfree.2.1, cookSteps_inv _ cap _ h,
          cookSteps_range _ _ hrange⟩
      · refine ⟨0,
          { w.restaurant with counters := w.restaurant.counters.set i { line := rest } },
          ?_, ?_, h, hrange⟩
        · simp only [Restaurant.cvWait, Griddle.isFull, beq_iff_eq, hfull, if_false]
        · simp only [Griddle.isFull, beq_eq_false_iff_ne, ne_eq]
          exact hfull
    obtain ⟨ticks, r, hw, hnot, hinv, hrg⟩ := hwait
    refine ⟨ticks, World.admission { w with restaurant := r } c, ?_, ?_, ?_⟩
    · simp only [World.visitCounter, hl, hserve, hw, List.isEmpty_cons, Bool.false_eq_true,
        if_false]
    · simp only [Griddle.isFull, beq_eq_false_iff_ne, ne_eq] at hnot
      simp only [admission_griddle, Griddle.addPatty, pqPush, List.length_cons]
      push_cast
      refine ⟨hinv.1, by omega, by omega⟩
    · refine ⟨hrg.1, ?_⟩
      intro x hx
      rw [admission_griddle] at hx
      rcases List.mem_cons.mp hx with hx | hx
      · rw [hx]; exact (wrapInt_isInt _).2
      · exact hrg.2 x hx

theorem processOrdersLoop_congr (s1 s2 : Nat → Nat) (n : Nat) :
    ∀ (i : Nat) (w : World), (∀ j, i ≤ j → s1 j = s2 j) →
      World.processOrdersLoop s1 n i w = World.processOrdersLoop s2 n i w := by
  induction n with
  | zero => intro i w _; rfl
  | succ n ih =>
    intro i w h
    simp only [World.processOrdersLoop, h i (le_refl i)]
    cases w.visitCounter (s2 i) i with
    | none => rfl
    | some w1 => exact ih (i + 1) w1 (fun j hj => h j (by omega))

theorem processOrdersLoop_total (n : Nat) (cap : Int) (hcap : 1 ≤ cap) :
    ∀ (i : Nat) (w : World),
      (w.restaurant.griddle.capacity = cap ∧ 0 ≤ w.restaurant.griddle.availableSpots ∧
        w.restaurant.griddle.capacity - w.restaurant.griddle.availableSpots
          = w.restaurant.griddle.cookTimes.length) →
      (INT_MIN ≤ w.restaurant.currentTime ∧
        ∀ x ∈ w.restaurant.griddle.cookTimes, x ≤ INT_MAX) →
      ∃ (sched : Nat → Nat) (w1 : World), World.processOrdersLoop sched n i w = some w1 := by
  induction n with
  | zero => intro i w _ _; exact ⟨fun _ => 0, w, rfl⟩
  | succ n ih =>
    intro i w h hrange
    obtain ⟨ticks, w2, hvisit, hinv2, hrange2⟩ := visitCounter_total w i cap hcap h hrange
    obtain ⟨sched, w1, hloop⟩ := ih (i + 1) w2 hinv2 hrange2
    refine ⟨Function.update sched i ticks, w1, ?_⟩
    simp only [World.processOrdersLoop, Function.update_same, hvisit]
    rw [processOrdersLoop_congr (Function.update sched i ticks) sched n (i + 1) w2
      (fun j hj => Function.update_noteq (by omega) ticks sched)]
    exact hloop

/-- A call of `processOrders` is never left waiting forever: on a griddle of
capacity at least 1 whose free spots and pending ticks add up to the capacity,
the clock and the pending ticks being values of `int`, there is a schedule of
the clock, finitely many iterations at each wait, under which the pass
completes. -/
theorem processOrders_completes (w : World) (hcap : 1 ≤ w.restaurant.griddle.capacity)
    (havail : 0 ≤ w.restaurant.griddle.availableSpots)
    (hsize : w.restaurant.griddle.capacity - w.restaurant.griddle.availableSpots
      = w.restaurant.griddle.cookTimes.length)
    (htime : INT_MIN ≤ w.restaurant.currentTime)
    (hticks : ∀ x ∈ w.restaurant.griddle.cookTimes, x ≤ INT_MAX) :
    ∃ (sched : Nat → Nat) (w1 : World), w.processOrders sched = some w1 :=
  processOrdersLoop_total _ w.restaurant.griddle.capacity hcap 0 w ⟨rfl, havail, hsize⟩
    ⟨htime, hticks⟩

end McMahon
